import Mathlib

/-!
Verification of the footnotes extension (`markdown/extensions/footnotes.py`).

Shallow embedding: Python strings become `List Char`, `xml.etree` elements
become the inductive `Element` type, the mutable extension state becomes the
`FnState` record threaded explicitly, and code that can raise
(`ValueError` from tuple unpacking, `KeyError`, `TypeError` from
`None + str`) returns `Except Unit _`.  The external block-rendering engine
(`self.parser.parseChunk`) is a parameter `parse : Str → List Element`
giving the children it would deposit in the surrogate parent.
-/

namespace MdFootnotes

abbrev Str := List Char

/-- Python whitespace characters recognised by `str.strip()` (ASCII subset). -/
def isPySpace (c : Char) : Bool :=
  c = ' ' || c = '\t' || c = '\n' || c = '\x0d' || c = '\x0b' || c = '\x0c'

/-- Python `s.lstrip()` (no argument: strip whitespace on the left). -/
def pyStripL (s : Str) : Str := s.dropWhile isPySpace

/-- Python `s.rstrip()` (no argument: strip whitespace on the right). -/
def pyStripR (s : Str) : Str := (s.reverse.dropWhile isPySpace).reverse

/-- Python `s.strip()` with no argument. -/
def pyStrip (s : Str) : Str := pyStripR (pyStripL s)

/-- Python `s.lstrip(c)` for a single strip character `c`. -/
def pyStripLCh (c : Char) (s : Str) : Str := s.dropWhile (· = c)

/-- Python `s.rstrip(c)` for a single strip character `c`. -/
def pyStripRCh (c : Char) (s : Str) : Str := (s.reverse.dropWhile (· = c)).reverse

/-- Python `s.strip(c)` for a single strip character `c`. -/
def pyStripCh (c : Char) (s : Str) : Str := pyStripRCh c (pyStripLCh c s)

/-- Does `p` occur as a leading segment of `s`?  (Python `s.startswith(p)`.) -/
def leadsWith : Str → Str → Bool
  | [], _ => true
  | _ :: _, [] => false
  | p :: ps, c :: cs => p = c && leadsWith ps cs

/-- Index of the first occurrence of `sub` in `s` (Python `s.find(sub)`,
with `none` for `-1`).  For empty `sub` the result is `some 0`. -/
def findSub (sub : Str) : Str → Option Nat
  | [] => if sub = [] then some 0 else none
  | c :: cs =>
    if leadsWith sub (c :: cs) then some 0
    else (findSub sub cs).map (· + 1)

/-- Python `sub in s` / `s.find(sub) > -1`. -/
def containsSub (sub s : Str) : Bool := (findSub sub s).isSome

/-- Python `s.split(sep, 1)` unpacked into exactly two variables:
`none` models the `ValueError` raised when `sep` is empty or does not
occur in `s` (one part only), `some (a, b)` the successful unpacking. -/
def pySplit1 (sep : Str) (s : Str) : Option (Str × Str) :=
  if sep = [] then none else pySplit1Go sep s
where
  pySplit1Go (sep : Str) : Str → Option (Str × Str)
    | [] => none
    | c :: cs =>
      if leadsWith sep (c :: cs) then some ([], (c :: cs).drop sep.length)
      else (pySplit1Go sep cs).map (fun p => (c :: p.1, p.2))

/-- Split a string into its lines at `'\n'` (Python `s.split('\n')`). -/
def splitLines : Str → List Str
  | [] => [[]]
  | c :: cs =>
    if c = '\n' then [] :: splitLines cs
    else
      match splitLines cs with
      | [] => [[c]]
      | l :: ls => (c :: l) :: ls

/-- Join lines with `'\n'` (Python `'\n'.join(lines)`). -/
def joinLines : List Str → Str
  | [] => []
  | [l] => l
  | l :: ls => l ++ '\n' :: joinLines ls

/-- Join blocks with a blank line (Python `'\n\n'.join(blocks)`). -/
def joinBlocks : List Str → Str
  | [] => []
  | [b] => b
  | b :: bs => b ++ '\n' :: '\n' :: joinBlocks bs

/-- Decimal digit character for `n % 10`. -/
def digitChar : Nat → Char
  | 0 => '0' | 1 => '1' | 2 => '2' | 3 => '3' | 4 => '4'
  | 5 => '5' | 6 => '6' | 7 => '7' | 8 => '8' | _ => '9'

/-- ASCII decimal digit test (the `\d` character class of `RE_REF_ID`). -/
def isDigitCh (c : Char) : Bool := c ∈ "0123456789".data

/-- Fuel-driven base-10 rendering; fuel `n + 1` always suffices. -/
def natToStrAux : Nat → Nat → Str
  | 0, _ => []
  | fuel + 1, n =>
    if n < 10 then [digitChar n]
    else natToStrAux fuel (n / 10) ++ [digitChar (n % 10)]

/-- Python `'%d' % n` for a natural number. -/
def natToStr (n : Nat) : Str := natToStrAux (n + 1) n

/-- Python `int(ds)` on a nonempty digit string. -/
def digitsToNat (ds : Str) : Nat := ds.foldl (fun a c => 10 * a + (c.toNat - 48)) 0

/-- Python `template.format(arg)` for templates whose only replacement
fields are empty braces: every `'\x7b\x7d'` occurrence becomes `arg`. -/
def format1 (arg : Str) : Str → Str
  | [] => []
  | c :: cs =>
    if c = Char.ofNat 123 then
      match cs with
      | d :: cs' => if d = Char.ofNat 125 then arg ++ format1 arg cs' else c :: d :: format1 arg cs'
      | [] => [c]
    else c :: format1 arg cs

/-- The replacement-field string used by the default templates. -/
def fmtSlot : Str := [Char.ofNat 123, Char.ofNat 125]

/-- First index at which `x` occurs in `l` (Python `list.index`, total
because every use site guarantees membership; returns `l.length` when
absent). -/
def idxOf (x : Str) : List Str → Nat
  | [] => 0
  | y :: ys => if y = x then 0 else idxOf x ys + 1

/-- Count of occurrences of `x` in `l`. -/
def countOcc (x : Str) : List Str → Nat
  | [] => 0
  | y :: ys => (if y = x then 1 else 0) + countOcc x ys

/-- Association-list lookup (leftmost binding wins, like a `dict` whose
keys are unique). -/
def lookupStr {α : Type} (k : Str) : List (Str × α) → Option α
  | [] => none
  | (k', v) :: rest => if k' = k then some v else lookupStr k rest

/-! ## Element trees (`xml.etree.ElementTree.Element`) -/

/-- An element: tag, attribute list (insertion order, unique keys), text,
tail, and children.  `text`/`tail` are `Option` because `etree` distinguishes
`None` from the empty string. -/
inductive Element where
  | mk (tag : Str) (attrs : List (Str × Str)) (text tail : Option Str) (children : List Element)

def Element.tag : Element → Str
  | .mk t _ _ _ _ => t

def Element.attrs : Element → List (Str × Str)
  | .mk _ a _ _ _ => a

def Element.text : Element → Option Str
  | .mk _ _ x _ _ => x

def Element.tail : Element → Option Str
  | .mk _ _ _ l _ => l

def Element.children : Element → List Element
  | .mk _ _ _ _ cs => cs

mutual
def elemBEq : Element → Element → Bool
  | .mk t a x l cs, .mk t' a' x' l' cs' =>
    t = t' && a = a' && x = x' && l = l' && elemListBEq cs cs'

def elemListBEq : List Element → List Element → Bool
  | [], [] => true
  | e :: es, f :: fs => elemBEq e f && elemListBEq es fs
  | _, _ => false
end

mutual
theorem elemBEq_iff : ∀ e f : Element, elemBEq e f = true ↔ e = f
  | .mk t a x l cs, .mk t' a' x' l' cs' => by
    simp only [elemBEq, Bool.and_eq_true, decide_eq_true_eq, Element.mk.injEq]
    rw [elemListBEq_iff cs cs']
    tauto

theorem elemListBEq_iff : ∀ es fs : List Element, elemListBEq es fs = true ↔ es = fs
  | [], [] => by simp [elemListBEq]
  | e :: es, f :: fs => by
    simp only [elemListBEq, Bool.and_eq_true, List.cons.injEq]
    rw [elemBEq_iff e f, elemListBEq_iff es fs]
  | [], _ :: _ => by simp [elemListBEq]
  | _ :: _, [] => by simp [elemListBEq]
end

instance : DecidableEq Element := fun e f =>
  decidable_of_iff (elemBEq e f = true) (elemBEq_iff e f)

instance {ε α : Type} [DecidableEq ε] [DecidableEq α] : DecidableEq (Except ε α) := fun x y =>
  match x, y with
  | .ok a, .ok b => if h : a = b then .isTrue (by rw [h]) else .isFalse (by simp [h])
  | .error a, .error b => if h : a = b then .isTrue (by rw [h]) else .isFalse (by simp [h])
  | .ok _, .error _ => .isFalse (by simp)
  | .error _, .ok _ => .isFalse (by simp)

/-- Python `element.attrib.get(key, default)`. -/
def attrGetD (e : Element) (k : Str) (d : Str) : Str :=
  (lookupStr k e.attrs).getD d

/-- Python `element.attrib[key]` (`none` models the `KeyError`). -/
def attrGet (e : Element) (k : Str) : Option Str := lookupStr k e.attrs

/-- Python `element.set(key, value)` / `element.attrib[key] = value`:
replace the binding in place, or append it. -/
def attrsSet (k v : Str) : List (Str × Str) → List (Str × Str)
  | [] => [(k, v)]
  | (k', v') :: rest => if k' = k then (k', v) :: rest else (k', v') :: attrsSet k v rest

def Element.setAttr (e : Element) (k v : Str) : Element :=
  match e with
  | .mk t a x l cs => .mk t (attrsSet k v a) x l cs

def Element.setTail (e : Element) (l' : Option Str) : Element :=
  match e with
  | .mk t a x l cs => match l with | _ => .mk t a x l' cs

def Element.appendChild (e : Element) (c : Element) : Element :=
  match e with
  | .mk t a x l cs => .mk t a x l (cs ++ [c])

/-- Apply `f` to the entry of `l` at index `i` (identity when out of range). -/
def modifyAt {α : Type} (f : α → α) : List α → Nat → List α
  | [], _ => []
  | c :: cs, 0 => f c :: cs
  | c :: cs, i + 1 => c :: modifyAt f cs i

/-- Insert `x` at index `i` of `l` (appends when `i` is past the end). -/
def insertAt {α : Type} (x : α) : List α → Nat → List α
  | cs, 0 => x :: cs
  | [], _ + 1 => [x]
  | c :: cs, i + 1 => c :: insertAt x cs i

mutual
/-- All elements of the subtree rooted at `e`, in document order
(Python `element.iter()` without tag filter). -/
def Element.iterAll : Element → List Element
  | .mk t a x l cs => .mk t a x l cs :: iterAllList cs

def iterAllList : List Element → List Element
  | [] => []
  | c :: cs => c.iterAll ++ iterAllList cs
end

/-- Python `element.iter(tag)`. -/
def Element.iterTag (e : Element) (t : Str) : List Element :=
  e.iterAll.filter (fun x => x.tag = t)

/-! ## Extension configuration and state -/

/-- The recognised configuration options, with the source's defaults.
`BACKLINK_TITLE` is stored after the `__init__`-time replacement of the
old `%d` placeholder by an empty replacement field. -/
structure Config where
  placeMarker : Str := "///Footnotes Go Here///".data
  uniqueIds : Bool := false
  backlinkText : Str := "&#8617;".data
  superscriptText : Str := fmtSlot
  backlinkTitle : Str := "Jump back to footnote ".data ++ fmtSlot ++ " in the text".data
  sep : Str := ":".data
  useDefinitionOrder : Bool := false

def defaultConfig : Config := {}

/-- The per-document mutable state of `FootnoteExtension`.
`footnotes` is the `OrderedDict` as an insertion-ordered association list
with unique keys. -/
structure FnState where
  footnote_order : List Str
  footnotes : List (Str × Str)
  uniquePrefixNum : Nat
  found_refs : List (Str × Nat)
  used_refs : List Str
deriving DecidableEq

/-- `FootnoteExtension.reset`. -/
def reset (st : FnState) : FnState :=
  { footnote_order := [], footnotes := [], uniquePrefixNum := st.uniquePrefixNum + 1,
    found_refs := [], used_refs := [] }

/-- `OrderedDict` upsert (`self.footnotes[id] = text`): replace in place
when the key is present, append otherwise. -/
def odSet (k v : Str) : List (Str × Str) → List (Str × Str)
  | [] => [(k, v)]
  | (k', v') :: rest => if k' = k then (k', v) :: rest else (k', v') :: odSet k v rest

/-- `FootnoteExtension.setFootnote`. -/
def setFootnote (st : FnState) (id text : Str) : FnState :=
  { st with footnotes := odSet id text st.footnotes }

/-- `FootnoteExtension.addFootnoteRef`. -/
def addFootnoteRef (st : FnState) (id : Str) : FnState :=
  if id ∈ st.footnote_order then st
  else { st with footnote_order := st.footnote_order ++ [id] }

/-- Keys of the definitions mapping (`self.footnotes.keys()`). -/
def fnKeys (st : FnState) : List Str := st.footnotes.map Prod.fst

/-! ## `unique_ref` and the anchor-id builders -/

def FNREF : Str := "fnref".data

/-- `RE_REF_ID.match(ref)`: when `ref` starts with the fixed token `fnref`
followed by at least one decimal digit, return the value of the maximal
digit run (`int(m.group(2))`); anything after the digits is outside the
match and is dropped by the caller's reconstruction from `m.group(1)`. -/
def matchRefId (s : Str) : Option Nat :=
  if leadsWith FNREF s then
    let ds := (s.drop 5).takeWhile isDigitCh
    if ds = [] then none else some (digitsToNat ds)
  else none

/-- Result of `unique_ref`: a returned string, a `ValueError` from the
tuple unpacking of `split`, or exhaustion of the loop fuel (the model's
bound on the `while` loop; unreachable under the hypotheses of the
theorems below). -/
inductive URes where
  | ok (r : Str)
  | valueError
  | noFuel
deriving DecidableEq

/-- One execution of the body of `while reference in self.used_refs`. -/
def refStep (sep : Str) (reference : Str) : Option Str :=
  match pySplit1 sep reference with
  | none => none
  | some (ref, rest) =>
    match matchRefId ref with
    | some n => some (FNREF ++ natToStr (n + 1) ++ sep ++ rest)
    | none => some (ref ++ natToStr 2 ++ sep ++ rest)

/-- The `while reference in self.used_refs` loop, fuel-bounded. -/
def uniqueRefLoop (sep : Str) (used : List Str) : Nat → Str → URes
  | fuel, reference =>
    if reference ∈ used then
      match fuel with
      | 0 => .noFuel
      | fuel' + 1 =>
        match refStep sep reference with
        | none => .valueError
        | some r => uniqueRefLoop sep used fuel' r
    else .ok reference

/-- Python `set.add` on the duplicate-free list model of `used_refs`. -/
def addUsed (r : Str) (used : List Str) : List Str :=
  if r ∈ used then used else r :: used

/-- Increment `found_refs[k]`, initialising to `1` when the key is absent. -/
def bumpFound (k : Str) : List (Str × Nat) → List (Str × Nat)
  | [] => [(k, 1)]
  | (k', c) :: rest => if k' = k then (k', c + 1) :: rest else (k', c) :: bumpFound k rest

/-- `FootnoteExtension.unique_ref`.  With `found = False` the reference is
returned untouched and no state changes.  Otherwise the loop disambiguates
against `used_refs`, the result is added to `used_refs`, and `found_refs`
is bumped under the original (pre-loop) reference. -/
def unique_ref (cfg : Config) (st : FnState) (reference : Str) (found : Bool) : URes × FnState :=
  if !found then (.ok reference, st)
  else
    match uniqueRefLoop cfg.sep st.used_refs (st.used_refs.length + 1) reference with
    | .ok r =>
      (.ok r, { st with used_refs := addUsed r st.used_refs,
                        found_refs := bumpFound reference st.found_refs })
    | e => (e, st)

/-- `FootnoteExtension.makeFootnoteId`. -/
def makeFootnoteId (cfg : Config) (st : FnState) (id : Str) : Str :=
  if cfg.uniqueIds then "fn".data ++ cfg.sep ++ natToStr st.uniquePrefixNum ++ "-".data ++ id
  else "fn".data ++ cfg.sep ++ id

/-- The candidate back-reference anchor id built inside
`makeFootnoteRefId` before `unique_ref` is consulted. -/
def refCandidate (cfg : Config) (st : FnState) (id : Str) : Str :=
  if cfg.uniqueIds then FNREF ++ cfg.sep ++ natToStr st.uniquePrefixNum ++ "-".data ++ id
  else FNREF ++ cfg.sep ++ id

/-- `FootnoteExtension.makeFootnoteRefId`. -/
def makeFootnoteRefId (cfg : Config) (st : FnState) (id : Str) (found : Bool) : URes × FnState :=
  unique_ref cfg st (refCandidate cfg st id) found

/-! ## `makeFootnotesDiv` -/

def FN_BACKLINK_TEXT : Str := '\x02' :: "zz1337820767766393qq".data ++ ['\x03']

def NBSP_PLACEHOLDER : Str := '\x02' :: "qq3936677670287331zz".data ++ ['\x03']

def Element.setText (e : Element) (x' : Option Str) : Element :=
  match e with
  | .mk t a _ l cs => .mk t a x' l cs

/-- The back-link anchor appended to each list item by `makeFootnotesDiv`. -/
def backlinkEl (cfg : Config) (index : Nat) (refid : Str) : Element :=
  .mk "a".data
    [("href".data, '#' :: refid), ("class".data, "footnote-backref".data),
     ("title".data, format1 (natToStr index) cfg.backlinkTitle)]
    (some FN_BACKLINK_TEXT) none []

/-- Build one `li` of the footnote div (`makeFootnotesDiv` loop body).
`index` is the 1-based enumeration index used for the back-link title.
The `.error` result models the `TypeError` of `node.text + NBSP_PLACEHOLDER`
when the last parsed child is a `p` whose `text` is `None`. -/
def buildLi (cfg : Config) (parse : Str → List Element) (st : FnState)
    (index : Nat) (id text : Str) : Except Unit Element × FnState :=
  let parsed := parse text
  let (res, st') := makeFootnoteRefId cfg st id false
  match res with
  | .ok refid =>
    let backlink : Element := backlinkEl cfg index refid
    let mkLi := fun cs => Element.mk "li".data [("id".data, makeFootnoteId cfg st id)] none none cs
    match parsed.getLast? with
    | none => (.ok (mkLi []), st')
    | some node =>
      if node.tag = "p".data then
        match node.text with
        | none => (.error (), st')
        | some t =>
          let node' := (node.setText (some (t ++ NBSP_PLACEHOLDER))).appendChild backlink
          (.ok (mkLi (parsed.dropLast ++ [node'])), st')
      else
        (.ok (mkLi (parsed ++ [Element.mk "p".data [] none none [backlink]])), st')
  | _ => (.error (), st')

/-- The enumerated loop of `makeFootnotesDiv`, threading the state through
each `makeFootnoteRefId` call. -/
def buildLis (cfg : Config) (parse : Str → List Element) :
    FnState → Nat → List (Str × Str) → Except Unit (List Element) × FnState
  | st, _, [] => (.ok [], st)
  | st, index, (id, text) :: rest =>
    match buildLi cfg parse st index id text with
    | (.ok li, st') =>
      match buildLis cfg parse st' (index + 1) rest with
      | (.ok lis, st'') => (.ok (li :: lis), st'')
      | (.error e, st'') => (.error e, st'')
    | (.error e, st') => (.error e, st')

/-- `FootnoteExtension.makeFootnotesDiv`: `none` when no footnotes are
stored, otherwise the `div` containing an `hr` and the `ol` of items, one
per stored definition in definition order. -/
def makeFootnotesDiv (cfg : Config) (parse : Str → List Element) (st : FnState) :
    Except Unit (Option Element) × FnState :=
  if st.footnotes = [] then (.ok none, st)
  else
    match buildLis cfg parse st 1 st.footnotes with
    | (.ok lis, st') =>
      (.ok (some (.mk "div".data [("class".data, "footnote".data)] none none
        [.mk "hr".data [] none none [], .mk "ol".data [] none none lis])), st')
    | (.error e, st') => (.error e, st')

/-! ## `findFootnotesPlaceholder` and `FootnoteTreeprocessor.run` -/

/-- Truthiness-guarded marker test on an `etree` text or tail field
(`if child.text: if child.text.find(marker) > -1:`). -/
def optTextHasMarker (marker : Str) : Option Str → Bool
  | none => false
  | some t => t ≠ [] && containsSub marker t

mutual
/-- `FootnoteExtension.findFootnotesPlaceholder`: the first child, in the
depth-first order of the source's `finder`, whose text or tail contains
the placeholder.  The child is identified by its index path from the
root; the Bool is the source's `isText`. -/
def findFootnotesPlaceholder (marker : Str) : Element → Option (List Nat × Bool)
  | .mk _ _ _ _ cs => finderChildren marker cs 0

def finderChildren (marker : Str) : List Element → Nat → Option (List Nat × Bool)
  | [], _ => none
  | c :: cs, i =>
    if optTextHasMarker marker c.text then some ([i], true)
    else if optTextHasMarker marker c.tail then some ([i], false)
    else
      match findFootnotesPlaceholder marker c with
      | some (p, b) => some (i :: p, b)
      | none => finderChildren marker cs (i + 1)
end

/-- `parent.remove(child); parent.insert(ind, footnotesDiv)` at the end of
an index path: replace the addressed child by `div`. -/
def replaceChildAt (div : Element) : List Nat → Element → Element
  | [], root => root
  | [i], .mk t a x l cs => .mk t a x l (cs.set i div)
  | i :: j :: p, .mk t a x l cs =>
    .mk t a x l (modifyAt (fun c => replaceChildAt div (j :: p) c) cs i)

/-- `parent.insert(ind + 1, footnotesDiv); child.tail = None` at the end of
an index path. -/
def insertAfterAt (div : Element) : List Nat → Element → Element
  | [], root => root
  | [i], .mk t a x l cs =>
    .mk t a x l (insertAt div (modifyAt (fun c => c.setTail none) cs i) (i + 1))
  | i :: j :: p, .mk t a x l cs =>
    .mk t a x l (modifyAt (fun c => insertAfterAt div (j :: p) c) cs i)

/-- `FootnoteTreeprocessor.run`. -/
def treeRun (cfg : Config) (parse : Str → List Element) (st : FnState) (root : Element) :
    Except Unit Element × FnState :=
  match makeFootnotesDiv cfg parse st with
  | (.ok none, st') => (.ok root, st')
  | (.ok (some div), st') =>
    match findFootnotesPlaceholder cfg.placeMarker root with
    | some (p, true) => (.ok (replaceChildAt div p root), st')
    | some (p, false) => (.ok (insertAfterAt div p root), st')
    | none => (.ok (root.appendChild div), st')
  | (.error e, st') => (.error e, st')

/-! ## `FootnoteInlineProcessor.handleMatch` -/

/-- `FootnoteInlineProcessor.handleMatch` for a matched label `id`:
`.ok none` is the decline (unknown label), `.ok (some sup)` the
constructed superscript reference node. -/
def handleMatch (cfg : Config) (st : FnState) (id : Str) : Except Unit (Option Element) × FnState :=
  if id ∈ fnKeys st then
    let st1 := addFootnoteRef st id
    let num :=
      if !cfg.useDefinitionOrder then idxOf id st1.footnote_order + 1
      else idxOf id (fnKeys st1) + 1
    match makeFootnoteRefId cfg st1 id true with
    | (.ok refid, st2) =>
      let a : Element :=
        .mk "a".data
          [("href".data, '#' :: makeFootnoteId cfg st2 id), ("class".data, "footnote-ref".data)]
          (some (format1 (natToStr num) cfg.superscriptText)) none []
      (.ok (some (.mk "sup".data [("id".data, refid)] none none [a])), st2)
    | (_, st2) => (.error (), st2)
  else (.ok none, st)

/-- The inline stage over a list of matched labels, collecting each
call's result. -/
def processRefs (cfg : Config) : FnState → List Str → FnState × List (Except Unit (Option Element))
  | st, [] => (st, [])
  | st, id :: ids =>
    let (r, st') := handleMatch cfg st id
    let (stF, rs) := processRefs cfg st' ids
    (stF, r :: rs)

/-! ## `FootnotePostTreeprocessor` -/

/-- `FootnotePostTreeprocessor.get_num_duplicates`: `.error` models the
`ValueError` of unpacking `split(sep, 1)` when the item's id attribute is
missing or does not contain the separator. -/
def get_num_duplicates (cfg : Config) (st : FnState) (li : Element) : Except Unit Nat :=
  match pySplit1 cfg.sep (attrGetD li "id".data []) with
  | none => .error ()
  | some (fn, rest) =>
    .ok ((lookupStr (fn ++ "ref".data ++ cfg.sep ++ rest) st.found_refs).getD 0)

/-- The first anchor of `li.iter('a')` whose class is `footnote-backref`. -/
def findBackrefLink (li : Element) : Option Element :=
  (li.iterTag "a".data).find? (fun link => attrGetD link "class".data [] = "footnote-backref".data)

def Element.appendChildren (e : Element) (ls : List Element) : Element :=
  match e with
  | .mk t a x l cs => .mk t a x l (cs ++ ls)

/-- `FootnotePostTreeprocessor.add_duplicates` (the `self.offset` counter
is written but never read elsewhere and is omitted).  The clones of the
back-link get hrefs built from `range(2, duplicates + 1)` and are all
appended to the item's last child. -/
def add_duplicates (cfg : Config) (li : Element) (duplicates : Nat) : Except Unit Element :=
  match findBackrefLink li with
  | none => .ok li
  | some link =>
    match attrGet link "href".data with
    | none => .error ()
    | some href =>
      match pySplit1 cfg.sep href with
      | none => .error ()
      | some (ref, rest) =>
        let links := (List.range' 2 (duplicates - 1)).map
          (fun n => link.setAttr "href".data (ref ++ natToStr n ++ cfg.sep ++ rest))
        match li with
        | .mk t a x l cs =>
          match cs.getLast? with
          | none => .error ()
          | some el => .ok (.mk t a x l (cs.dropLast ++ [el.appendChildren links]))

/-- `FootnotePostTreeprocessor.handle_duplicates` over the items of the
footnote `ol`. -/
def handle_duplicates (cfg : Config) (st : FnState) : List Element → Except Unit (List Element)
  | [] => .ok []
  | li :: lis =>
    match get_num_duplicates cfg st li with
    | .error e => .error e
    | .ok count =>
      match (if count > 1 then add_duplicates cfg li count else .ok li) with
      | .error e => .error e
      | .ok li' => (handle_duplicates cfg st lis).map (li' :: ·)

/-! ## `FootnoteBlockProcessor` -/

/-- One line of `FootnoteBlockProcessor.RE`
(`^[ ]{0,3}\[\^([^\]]*)\]:[ ]*(.*)$`): at most 3 leading spaces, the
`[^label]:` marker, then optional spaces and the rest of the line.
Returns (label, rest-of-line). -/
def lineMatch (line : Str) : Option (Str × Str) :=
  if (line.takeWhile (· = ' ')).length ≤ 3 then
    match line.dropWhile (· = ' ') with
    | c1 :: c2 :: r =>
      if c1 = '[' ∧ c2 = '^' then
        match r.dropWhile (· ≠ ']') with
        | d1 :: d2 :: r2 =>
          if d1 = ']' ∧ d2 = ':' then some (r.takeWhile (· ≠ ']'), pyStripLCh ' ' r2)
          else none
        | _ => none
      else none
    | _ => none
  else none

/-- `RE.search` over a block given as its list of lines (`re.MULTILINE`
anchors every match at a line start, so the first matching line is the
match): (lines before the match, the raw matched line, (label, rest of
line), lines after the match). -/
def searchLines : List Str → Option (List Str × Str × (Str × Str) × List Str)
  | [] => none
  | l :: ls =>
    match lineMatch l with
    | some lr => some ([], l, lr, ls)
    | none => (searchLines ls).map (fun r => (l :: r.1, r.2.1, r.2.2.1, r.2.2.2))

/-- `FootnoteBlockProcessor.detab` on a single line: remove one leading
4-space run when present, leave the line alone otherwise. -/
def detabLine (line : Str) : Str :=
  if leadsWith "    ".data line then line.drop 4 else line

/-- `FootnoteBlockProcessor.detab`. -/
def detab (block : Str) : Str := joinLines ((splitLines block).map detabLine)

/-- `FootnoteBlockProcessor.detectTabbed`: pop 4-space-indented blocks as
continuations, splitting at a new footnote marker.  Returns the collected
(dedented) continuation blocks and the remaining block queue. -/
def detectTabbed : List Str → List Str × List Str
  | [] => ([], [])
  | b :: bs =>
    if leadsWith "    ".data b then
      match searchLines (splitLines b) with
      | some (bLines2, raw2, _, aLines2) =>
        let before := pyStripRCh '\n' (if bLines2 = [] then [] else joinLines bLines2 ++ ['\n'])
        ([detab before], joinLines (raw2 :: aLines2) :: bs)
      | none =>
        let (fns, rem) := detectTabbed bs
        (detab b :: fns, rem)
    else ([], b :: bs)

/-- `FootnoteBlockProcessor.run`: pop the first block, extract the first
footnote definition with its lazy continuation, store it, and re-queue
the prefix (only when non-blank) and the text from any second marker.
Returns the new state, the source's handled/declined Bool, and the new
block queue. -/
def blockRun (st : FnState) (block : Str) (blocks : List Str) : FnState × Bool × List Str :=
  match searchLines (splitLines block) with
  | none => (st, false, block :: blocks)
  | some (bLines, _, (id, rest0), aLines) =>
    let therest := joinLines (aLines.dropWhile (· = []))
    let (fnBlocks, blocks1) :=
      match searchLines (splitLines therest) with
      | some (bLines2, raw2, _, aLines2) =>
        let before := pyStripRCh '\n' (if bLines2 = [] then [] else joinLines bLines2 ++ ['\n'])
        ([pyStripLCh '\n' (rest0 ++ '\n' :: detab before)], joinLines (raw2 :: aLines2) :: blocks)
      | none =>
        let f := pyStripCh '\n' (rest0 ++ '\n' :: detab therest)
        let (extra, blocks') := detectTabbed blocks
        (f :: extra, blocks')
    let footnote := pyStripR (joinBlocks fnBlocks)
    let beforeFull := if bLines = [] then [] else joinLines bLines ++ ['\n']
    let blocks2 := if pyStrip beforeFull ≠ [] then pyStripRCh '\n' beforeFull :: blocks1 else blocks1
    (setFootnote st id footnote, true, blocks2)

/-! ## Spec-side observers and helpers used by the theorem statements -/

/-- Apply a sequence of definition upserts. -/
def applyOps (st : FnState) (ops : List (Str × Str)) : FnState :=
  ops.foldl (fun s p => setFootnote s p.1 p.2) st

/-- First-occurrence order of a list of ids, given ids already seen. -/
def firstOccurAux (seen : List Str) : List Str → List Str
  | [] => []
  | x :: xs => if x ∈ seen then firstOccurAux seen xs else x :: firstOccurAux (x :: seen) xs

/-- Each distinct id once, in order of first occurrence. -/
def firstOccur (l : List Str) : List Str := firstOccurAux [] l

/-- The text of the last upsert for `id`, if any (last write wins). -/
def lastWrite (id : Str) : List (Str × Str) → Option Str
  | [] => none
  | (k, v) :: rest =>
    match lastWrite id rest with
    | some w => some w
    | none => if k = id then some v else none

/-- The ids that resolve, in order of first resolution: the spec's
reference-order list as a function of the defined keys and the stream of
matched labels. -/
def resolvedOrder (keys : List Str) (refs : List Str) : List Str :=
  firstOccur (refs.filter (fun r => decide (r ∈ keys)))

/-- The ids of the list items of a built footnote div
(children are `[hr, ol]`). -/
def liIds (d : Element) : List Str :=
  match d.children with
  | [_, ol] => ol.children.map (fun li => attrGetD li "id".data [])
  | _ => []

/-- The items of the `ol` of a built footnote div. -/
def divItems (d : Element) : List Element :=
  match d.children with
  | [_, ol] => ol.children
  | _ => []

/-- Is this element a back-link anchor
(`a` with `class="footnote-backref"`)? -/
def isBackrefA (e : Element) : Bool :=
  e.tag = "a".data && attrGetD e "class".data [] = "footnote-backref".data

/-- All back-link anchors in the subtree of `e`, in document order. -/
def backrefsIn (e : Element) : List Element :=
  e.iterAll.filter isBackrefA

/-- The hrefs of the back-link anchors in the subtree of `e`. -/
def backrefHrefs (e : Element) : List Str :=
  (backrefsIn e).map (fun l => attrGetD l "href".data [])

/-- No element of these trees is a back-link anchor (hypothesis on the
output of the external block-rendering engine). -/
def cleanEls (els : List Element) : Bool :=
  (iterAllList els).all (fun e => !isBackrefA e)

/-- The superscript-number text of a built reference node: the text of
the `a` child of the `sup`. -/
def supNumText (e : Element) : Option Str :=
  match e.children with
  | [a] => a.text
  | _ => none

mutual
/-- Does the placeholder marker occur (truthily) in the text or tail of
any element of this subtree? -/
def hasMarkerE (marker : Str) : Element → Bool
  | .mk _ _ x l cs =>
    optTextHasMarker marker x || optTextHasMarker marker l || hasMarkerL marker cs

def hasMarkerL (marker : Str) : List Element → Bool
  | [] => false
  | c :: cs => hasMarkerE marker c || hasMarkerL marker cs
end

/-- Navigate an index path from an element down its children. -/
def getAtPath : Element → List Nat → Option Element
  | e, [] => some e
  | e, i :: p =>
    match e.children.get? i with
    | some c => getAtPath c p
    | none => none

/-- Increment the last index of a path (the sibling position just after). -/
def incLast : List Nat → List Nat
  | [] => []
  | [i] => [i + 1]
  | i :: j :: p => i :: incLast (j :: p)

/-- The disambiguation chain of a candidate back-reference anchor id
`fnref ++ sep ++ tail`: entry 1 is the candidate itself, entry `n ≥ 2`
carries the numeric suffix `n` directly after the fixed `fnref` token. -/
def dis (sep tail : Str) (n : Nat) : Str :=
  if n ≤ 1 then FNREF ++ sep ++ tail
  else FNREF ++ natToStr n ++ sep ++ tail

/-- Wellformedness of the configured separator for the anchor-id
theorems: nonempty, and its first character is none of the characters of
the fixed tokens (`fnref`, `fn`, a `#`-prefixed href) nor a digit. -/
def sepOK (sep : Str) : Prop :=
  match sep with
  | [] => False
  | c :: _ => c ∉ "fnref0123456789#".data

/-- A simple stand-in for the external block renderer: one paragraph
holding the raw text. -/
def simpleParse (t : Str) : List Element :=
  [.mk "p".data [] (some t) none []]

/-- The label part of the candidate back-reference anchor id: what follows
`fnref ++ sep` in the id built by `makeFootnoteRefId`. -/
def refTail (cfg : Config) (st : FnState) (id : Str) : Str :=
  if cfg.uniqueIds then natToStr st.uniquePrefixNum ++ "-".data ++ id else id

/-- `refTail` as a function of the unique-prefix number alone (the only
piece of the state it reads). -/
def refTailN (cfg : Config) (u : Nat) (id : Str) : Str :=
  if cfg.uniqueIds then natToStr u ++ "-".data ++ id else id

/-- The relation between the per-label reference counts `f` and the
duplicate-tracking state after the inline stage: `found_refs` holds each
resolved label's count under its candidate anchor id, and `used_refs`
holds exactly the disambiguation chains of the resolved labels. -/
def C3Inv (cfg : Config) (u : Nat) (keys : List Str) (f : Str → Nat) (st : FnState) : Prop :=
  st.uniquePrefixNum = u ∧
  fnKeys st = keys ∧
  (∀ z ∈ keys, lookupStr (dis cfg.sep (refTailN cfg u z) 1) st.found_refs
      = if f z = 0 then none else some (f z)) ∧
  (∀ s, s ∈ st.used_refs ↔
      ∃ z ∈ keys, ∃ j, 1 ≤ j ∧ j ≤ f z ∧ s = dis cfg.sep (refTailN cfg u z) j)

/-- The back-link anchor of the concrete duplicate-back-link scenario
(one definition `a`, referenced three times). -/
def c3bl : Element := backlinkEl defaultConfig 1 "fnref:a".data

/-- The footnote list of that scenario as built by `buildLis`, before the
duplicate-augmentation stage. -/
def c3lis : List Element :=
  [.mk "li".data [("id".data, "fn:a".data)] none none
    [.mk "p".data [] (some ("x".data ++ NBSP_PLACEHOLDER)) none [c3bl]]]

/-- The same list after `handle_duplicates` has cloned the back-link
twice. -/
def c3lis2 : List Element :=
  [.mk "li".data [("id".data, "fn:a".data)] none none
    [.mk "p".data [] (some ("x".data ++ NBSP_PLACEHOLDER)) none
      [c3bl,
       c3bl.setAttr "href".data "#fnref2:a".data,
       c3bl.setAttr "href".data "#fnref3:a".data]]]

/-- A concrete state in which the candidate back-reference id for label
`a` and its first numeric variant are both already used. -/
def c4st : FnState :=
  { footnote_order := ["a".data], footnotes := [("a".data, "A".data)],
    uniquePrefixNum := 0, found_refs := [("fnref:a".data, 1)],
    used_refs := ["fnref:a".data, "fnref2:a".data] }

/-! # Theorems -/

/-! ## Association-list lemmas for the `OrderedDict` model -/

theorem odSet_keys (k v : Str) (m : List (Str × Str)) :
    (odSet k v m).map Prod.fst =
      if k ∈ m.map Prod.fst then m.map Prod.fst else m.map Prod.fst ++ [k] := by
  induction m with
  | nil => simp [odSet]
  | cons p rest ih =>
    obtain ⟨k', v'⟩ := p
    by_cases h : k' = k
    · subst h; simp [odSet]
    · simp only [odSet, if_neg h, List.map_cons, ih, List.mem_cons]
      by_cases hm : k ∈ rest.map Prod.fst
      · simp [hm]
      · simp [hm, Ne.symm h]

theorem lookup_odSet_self (k v : Str) (m : List (Str × Str)) :
    lookupStr k (odSet k v m) = some v := by
  induction m with
  | nil => simp [odSet, lookupStr]
  | cons p rest ih =>
    obtain ⟨k', v'⟩ := p
    by_cases h : k' = k
    · subst h; simp [odSet, lookupStr]
    · simp [odSet, lookupStr, h, ih]

theorem lookup_odSet_other (k k' v : Str) (m : List (Str × Str)) (h : k' ≠ k) :
    lookupStr k' (odSet k v m) = lookupStr k' m := by
  have hne : ¬ k = k' := fun e => h e.symm
  induction m with
  | nil => simp [odSet, lookupStr, hne]
  | cons p rest ih =>
    obtain ⟨k'', v''⟩ := p
    by_cases h2 : k'' = k
    · subst h2
      simp [odSet, lookupStr, hne]
    · simp [odSet, lookupStr, h2, ih]

theorem firstOccurAux_congr (l : List Str) : ∀ s s' : List Str,
    (∀ a, a ∈ s ↔ a ∈ s') → firstOccurAux s l = firstOccurAux s' l := by
  induction l with
  | nil => intro s s' _; rfl
  | cons x xs ih =>
    intro s s' hss
    simp only [firstOccurAux]
    by_cases hx : x ∈ s
    · rw [if_pos hx, if_pos ((hss x).1 hx), ih s s' hss]
    · rw [if_neg hx, if_neg (fun hz => hx ((hss x).2 hz)), ih (x :: s) (x :: s')]
      intro a; simp [hss a]

theorem applyOps_keys (ops : List (Str × Str)) : ∀ st : FnState,
    fnKeys (applyOps st ops) = fnKeys st ++ firstOccurAux (fnKeys st) (ops.map Prod.fst) := by
  induction ops with
  | nil => intro st; simp [applyOps, firstOccurAux]
  | cons p rest ih =>
    intro st
    obtain ⟨k, v⟩ := p
    have step : applyOps st ((k, v) :: rest) = applyOps (setFootnote st k v) rest := rfl
    rw [step, ih]
    have hkeys : fnKeys (setFootnote st k v) =
        if k ∈ fnKeys st then fnKeys st else fnKeys st ++ [k] := odSet_keys k v st.footnotes
    by_cases hm : k ∈ fnKeys st
    · rw [hkeys, if_pos hm]
      simp [firstOccurAux, hm]
    · rw [hkeys, if_neg hm]
      simp only [List.map_cons, firstOccurAux, if_neg hm, List.append_assoc,
        List.singleton_append]
      congr 1
      congr 1
      exact firstOccurAux_congr _ _ _ (by intro a; simp [or_comm])

theorem applyOps_lookup (ops : List (Str × Str)) : ∀ (st : FnState) (id : Str),
    lookupStr id (applyOps st ops).footnotes =
      match lastWrite id ops with
      | some w => some w
      | none => lookupStr id st.footnotes := by
  induction ops with
  | nil => intro st id; rfl
  | cons p rest ih =>
    intro st id
    obtain ⟨k, v⟩ := p
    have step : applyOps st ((k, v) :: rest) = applyOps (setFootnote st k v) rest := rfl
    rw [step, ih]
    by_cases hw : ∃ w, lastWrite id rest = some w
    · obtain ⟨w, hw⟩ := hw
      simp [lastWrite, hw]
    · have hw' : lastWrite id rest = none := by
        cases h : lastWrite id rest with
        | none => rfl
        | some w => exact absurd ⟨w, h⟩ hw
      by_cases hk : k = id
      · subst hk
        simp [lastWrite, hw', setFootnote, lookup_odSet_self]
      · simp [lastWrite, hw', hk, setFootnote, lookup_odSet_other _ _ _ _ (Ne.symm hk)]

/-- C7: within one reset-to-reset lifecycle, iterating the definitions
mapping yields ids in first-insertion order regardless of how often an id
was re-defined, and the stored text of each id is the last one written. -/
theorem C7_upsert_order_and_last_write (ops : List (Str × Str)) (s : FnState) :
    fnKeys (applyOps (reset s) ops) = firstOccur (ops.map Prod.fst) ∧
    ∀ id, lookupStr id (applyOps (reset s) ops).footnotes = lastWrite id ops := by
  constructor
  · have h := applyOps_keys ops (reset s)
    simpa [reset, fnKeys, firstOccur] using h
  · intro id
    have h := applyOps_lookup ops (reset s) id
    cases hw : lastWrite id ops with
    | none => simpa [hw, reset, lookupStr] using h
    | some w => simpa [hw] using h

theorem handleMatch_unknown (cfg : Config) (st : FnState) (id : Str)
    (h : id ∉ fnKeys st) : handleMatch cfg st id = (.ok none, st) := by
  unfold handleMatch
  rw [if_neg h]

/-- C6: an inline reference whose label is not a stored definition key
produces no node and leaves the whole store state unchanged. -/
theorem C6_unknown_label_declines (cfg : Config) (st : FnState) (id : Str)
    (h : id ∉ fnKeys st) : handleMatch cfg st id = (.ok none, st) :=
  handleMatch_unknown cfg st id h

theorem C6_witness :
    "zz".data ∉ fnKeys ⟨[], [("a".data, "xa".data)], 1, [], []⟩ ∧
    handleMatch defaultConfig ⟨[], [("a".data, "xa".data)], 1, [], []⟩ "zz".data
      = (.ok none, ⟨[], [("a".data, "xa".data)], 1, [], []⟩) :=
  ⟨by decide, C6_unknown_label_declines defaultConfig _ _ (by decide)⟩

/-! ## C2: duplicate-count lookup on malformed item ids -/

/-- C2 counterexample: on a list item with no id attribute (so the
looked-up id is the empty string, which does not contain the separator),
`get_num_duplicates` raises `ValueError` from the tuple unpacking of
`split(sep, 1)` — it does not return 0. -/
theorem C2_counterexample :
    get_num_duplicates defaultConfig ⟨[], [], 1, [], []⟩ (.mk "li".data [] none none [])
      = .error () ∧
    get_num_duplicates defaultConfig ⟨[], [], 1, [], []⟩ (.mk "li".data [] none none [])
      ≠ .ok 0 := by
  constructor
  · rfl
  · decide

/-- C2 (amended): when the item's id attribute is missing or does not
contain the configured separator, the duplicate-count lookup raises
`ValueError` (it does not return 0); when the id does contain the
separator, a missing `found_refs` entry yields count 0, and a count of at
most 1 leaves the item untouched by `handle_duplicates`. -/
theorem C2_malformed_id_raises (cfg : Config) (st : FnState) (li : Element) :
    (pySplit1 cfg.sep (attrGetD li "id".data []) = none →
       get_num_duplicates cfg st li = .error ()) ∧
    (∀ fn rest, pySplit1 cfg.sep (attrGetD li "id".data []) = some (fn, rest) →
       lookupStr (fn ++ "ref".data ++ cfg.sep ++ rest) st.found_refs = none →
       get_num_duplicates cfg st li = .ok 0) ∧
    (∀ lis c, get_num_duplicates cfg st li = .ok c → c ≤ 1 →
       handle_duplicates cfg st (li :: lis) = (handle_duplicates cfg st lis).map (li :: ·)) := by
  refine ⟨?_, ?_, ?_⟩
  · intro h
    unfold get_num_duplicates
    rw [h]
  · intro fn rest h hl
    unfold get_num_duplicates
    rw [h]
    show Except.ok ((lookupStr (fn ++ "ref".data ++ cfg.sep ++ rest) st.found_refs).getD 0)
      = Except.ok 0
    rw [hl]
    rfl
  · intro lis c hc hle
    have hng : ¬ c > 1 := by omega
    simp only [handle_duplicates, hc, if_neg hng]

theorem C2_witness :
    (pySplit1 defaultConfig.sep
        (attrGetD (Element.mk "li".data [] none none []) "id".data []) = none ∧
      get_num_duplicates defaultConfig ⟨[], [], 1, [], []⟩ (.mk "li".data [] none none [])
        = .error ()) ∧
    (pySplit1 defaultConfig.sep
        (attrGetD (Element.mk "li".data [("id".data, "fn:a".data)] none none []) "id".data [])
        = some ("fn".data, "a".data) ∧
      get_num_duplicates defaultConfig ⟨[], [], 1, [], []⟩
        (.mk "li".data [("id".data, "fn:a".data)] none none []) = .ok 0) ∧
    handle_duplicates defaultConfig ⟨[], [], 1, [], []⟩
        [.mk "li".data [("id".data, "fn:a".data)] none none []]
      = .ok [.mk "li".data [("id".data, "fn:a".data)] none none []] :=
  ⟨⟨by decide,
    (C2_malformed_id_raises defaultConfig ⟨[], [], 1, [], []⟩ (.mk "li".data [] none none [])).1
      (by decide)⟩,
   ⟨by decide,
    (C2_malformed_id_raises defaultConfig ⟨[], [], 1, [], []⟩
        (.mk "li".data [("id".data, "fn:a".data)] none none [])).2.1
      "fn".data "a".data (by decide) (by decide)⟩,
   (C2_malformed_id_raises defaultConfig ⟨[], [], 1, [], []⟩
        (.mk "li".data [("id".data, "fn:a".data)] none none [])).2.2
      [] 0 (by decide) (by decide)⟩

/-! ## C1: which definitions get a list item -/

theorem unique_ref_not_found (cfg : Config) (st : FnState) (r : Str) :
    unique_ref cfg st r false = (.ok r, st) := rfl

theorem buildLi_state (cfg : Config) (parse : Str → List Element) (st : FnState)
    (index : Nat) (id text : Str) : (buildLi cfg parse st index id text).2 = st := by
  simp only [buildLi, makeFootnoteRefId, unique_ref_not_found]
  cases (parse text).getLast? with
  | none => rfl
  | some node =>
    by_cases hp : node.tag = "p".data
    · simp only [if_pos hp]
      cases node.text <;> rfl
    · simp only [if_neg hp]

theorem buildLi_ok_id (cfg : Config) (parse : Str → List Element) (st : FnState)
    (index : Nat) (id text : Str) (li : Element)
    (h : (buildLi cfg parse st index id text).1 = .ok li) :
    attrGetD li "id".data [] = makeFootnoteId cfg st id := by
  have base : ∀ cs, attrGetD (Element.mk "li".data [("id".data, makeFootnoteId cfg st id)]
      none none cs) "id".data [] = makeFootnoteId cfg st id := by
    intro cs
    simp [attrGetD, Element.attrs, lookupStr]
  simp only [buildLi, makeFootnoteRefId, unique_ref_not_found] at h
  split at h
  · injection h with h
    rw [← h]
    exact base _
  · split at h
    · split at h
      · exact absurd h (by simp)
      · injection h with h
        rw [← h]
        exact base _
    · injection h with h
      rw [← h]
      exact base _

theorem buildLis_ids (cfg : Config) (parse : Str → List Element) :
    ∀ (fns : List (Str × Str)) (st : FnState) (index : Nat) (lis : List Element),
    (buildLis cfg parse st index fns).1 = .ok lis →
    lis.map (fun li => attrGetD li "id".data []) = fns.map (fun p => makeFootnoteId cfg st p.1) := by
  intro fns
  induction fns with
  | nil =>
    intro st index lis h
    injection h with h
    rw [← h]
    rfl
  | cons p rest ih =>
    intro st index lis h
    obtain ⟨id, t⟩ := p
    simp only [buildLis] at h
    split at h
    case _ li st' hbl =>
      have hst : st' = st := by
        have := buildLi_state cfg parse st index id t
        rw [hbl] at this
        exact this
      split at h
      case _ lis' st'' hbs =>
        injection h with h
        rw [← h]
        have hid : attrGetD li "id".data [] = makeFootnoteId cfg st id := by
          apply buildLi_ok_id cfg parse st index id t
          rw [hbl]
        have htl := ih st' (index + 1) lis' (by rw [hbs])
        simp only [List.map_cons, hid, htl, hst]
      case _ e hbs => simp at h
    case _ e st' hbl => simp at h

/-- C1 counterexample: a store holding one definition `a` that was never
resolved by any inline reference (empty reference order, empty found-refs
counter) still yields a footnote list with an item for `a` — unreferenced
definitions do appear as list items. -/
theorem C1_counterexample :
    (FnState.footnote_order ⟨[], [("a".data, "x".data)], 1, [], []⟩ = [] ∧
     FnState.found_refs ⟨[], [("a".data, "x".data)], 1, [], []⟩ = []) ∧
    (makeFootnotesDiv defaultConfig simpleParse
        ⟨[], [("a".data, "x".data)], 1, [], []⟩).1.map (Option.map liIds)
      = .ok (some ["fn:a".data]) := by
  constructor
  · constructor <;> rfl
  · rfl

/-- C1 (amended): the tree-assembly step builds exactly one list item per
*stored* definition, in definition order, whether or not the definition
was ever resolved by an inline reference (the id of item `i` is the
render anchor id of the `i`-th stored definition). -/
theorem C1_item_per_stored_definition (cfg : Config) (parse : Str → List Element)
    (st : FnState) (d : Element)
    (h : (makeFootnotesDiv cfg parse st).1 = .ok (some d)) :
    liIds d = (fnKeys st).map (makeFootnoteId cfg st) := by
  unfold makeFootnotesDiv at h
  by_cases hf : st.footnotes = []
  · rw [if_pos hf] at h
    exact absurd h (by simp)
  · rw [if_neg hf] at h
    split at h
    case _ lis st' hbl =>
      injection h with h
      injection h with h
      rw [← h]
      show lis.map (fun li => attrGetD li "id".data []) = _
      rw [buildLis_ids cfg parse st.footnotes st 1 lis (by rw [hbl])]
      simp [fnKeys]
    case _ e st' hbl => simp at h

theorem C1_amended_witness :
    (makeFootnotesDiv defaultConfig simpleParse
        ⟨[], [("a".data, "x".data)], 1, [], []⟩).1
      = .ok (some (Element.mk "div".data [("class".data, "footnote".data)] none none
          [.mk "hr".data [] none none [],
           .mk "ol".data [] none none
             [.mk "li".data [("id".data, "fn:a".data)] none none
               [.mk "p".data [] (some ("x".data ++ NBSP_PLACEHOLDER)) none
                 [.mk "a".data
                   [("href".data, "#fnref:a".data), ("class".data, "footnote-backref".data),
                    ("title".data, "Jump back to footnote 1 in the text".data)]
                   (some FN_BACKLINK_TEXT) none []]]]])) ∧
    liIds (Element.mk "div".data [("class".data, "footnote".data)] none none
          [.mk "hr".data [] none none [],
           .mk "ol".data [] none none
             [.mk "li".data [("id".data, "fn:a".data)] none none
               [.mk "p".data [] (some ("x".data ++ NBSP_PLACEHOLDER)) none
                 [.mk "a".data
                   [("href".data, "#fnref:a".data), ("class".data, "footnote-backref".data),
                    ("title".data, "Jump back to footnote 1 in the text".data)]
                   (some FN_BACKLINK_TEXT) none []]]]])
      = (fnKeys ⟨[], [("a".data, "x".data)], 1, [], []⟩).map
          (makeFootnoteId defaultConfig ⟨[], [("a".data, "x".data)], 1, [], []⟩) :=
  ⟨by decide,
   C1_item_per_stored_definition defaultConfig simpleParse
     ⟨[], [("a".data, "x".data)], 1, [], []⟩ _ (by decide)⟩

/-! ## C10: building the list never touches duplicate-tracking state -/

theorem iterAllList_append (xs ys : List Element) :
    iterAllList (xs ++ ys) = iterAllList xs ++ iterAllList ys := by
  induction xs with
  | nil => rfl
  | cons c cs ih => simp [iterAllList, ih]

theorem filter_backref_nil (l : List Element) (h : ∀ e ∈ l, isBackrefA e = false) :
    l.filter isBackrefA = [] := by
  induction l with
  | nil => rfl
  | cons a t ih =>
    have ha := h a (List.mem_cons_self a t)
    have ht := ih (fun e he => h e (List.mem_cons_of_mem a he))
    simp [List.filter_cons, ha, ht]

theorem not_backref_of_tag (e : Element) (h : ¬ e.tag = "a".data) : isBackrefA e = false := by
  simp [isBackrefA, h]

theorem buildLis_state (cfg : Config) (parse : Str → List Element) :
    ∀ (fns : List (Str × Str)) (st : FnState) (index : Nat),
    (buildLis cfg parse st index fns).2 = st := by
  intro fns
  induction fns with
  | nil => intro st index; rfl
  | cons p rest ih =>
    intro st index
    obtain ⟨id, t⟩ := p
    simp only [buildLis]
    split
    case _ li st' hbl =>
      have h1 : st' = st := by
        have := buildLi_state cfg parse st index id t
        rw [hbl] at this
        exact this
      split
      case _ lis st'' hbs =>
        have h2 : st'' = st' := by
          have := ih st' (index + 1)
          rw [hbs] at this
          exact this
        simp [h2, h1]
      case _ e st'' hbs =>
        have h2 : st'' = st' := by
          have := ih st' (index + 1)
          rw [hbs] at this
          exact this
        simp [h2, h1]
    case _ e st' hbl =>
      have h1 : st' = st := by
        have := buildLi_state cfg parse st index id t
        rw [hbl] at this
        exact this
      simp [h1]

theorem makeFootnotesDiv_state (cfg : Config) (parse : Str → List Element) (st : FnState) :
    (makeFootnotesDiv cfg parse st).2 = st := by
  unfold makeFootnotesDiv
  split
  · rfl
  · split
    case _ lis st' hbl =>
      have := buildLis_state cfg parse st.footnotes st 1
      rw [hbl] at this
      exact this
    case _ e st' hbl =>
      have := buildLis_state cfg parse st.footnotes st 1
      rw [hbl] at this
      exact this

theorem backrefHrefs_li (attrs : List (Str × Str)) (cs : List Element) :
    backrefHrefs (.mk "li".data attrs none none cs)
      = ((iterAllList cs).filter isBackrefA).map (fun l => attrGetD l "href".data []) := by
  have hfalse : isBackrefA (.mk "li".data attrs none none cs) = false := by
    apply not_backref_of_tag
    simp [Element.tag]
  simp [backrefHrefs, backrefsIn, Element.iterAll, List.filter_cons, hfalse]

theorem buildLi_backrefs (cfg : Config) (parse : Str → List Element) (st : FnState)
    (index : Nat) (id text : Str) (li : Element)
    (hcl : cleanEls (parse text) = true)
    (h : (buildLi cfg parse st index id text).1 = .ok li) :
    backrefHrefs li = if parse text = [] then [] else ['#' :: refCandidate cfg st id] := by
  have hclean : ∀ e ∈ iterAllList (parse text), isBackrefA e = false := by
    intro e he
    have := List.all_eq_true.1 hcl e he
    simpa using this
  simp only [buildLi, makeFootnoteRefId, unique_ref_not_found] at h
  split at h
  case _ hlast =>
    have hnil : parse text = [] := List.getLast?_eq_none_iff.1 hlast
    injection h with h
    rw [← h, if_pos hnil]
    rfl
  case _ node hlast =>
    have hdecomp : (parse text).dropLast ++ [node] = parse text :=
      List.dropLast_append_getLast? node hlast
    have hne : ¬ parse text = [] := by
      intro hz
      rw [hz] at hlast
      simp at hlast
    have hsplit : iterAllList (parse text)
        = iterAllList (parse text).dropLast ++ node.iterAll := by
      conv_lhs => rw [← hdecomp]
      rw [iterAllList_append]
      simp [iterAllList]
    have hdl : ∀ e ∈ iterAllList (parse text).dropLast, isBackrefA e = false := by
      intro e he
      exact hclean e (by rw [hsplit]; exact List.mem_append_left _ he)
    rcases node with ⟨nt, na, nx, nl, ncs⟩
    have hnodeCh : ∀ e ∈ iterAllList ncs, isBackrefA e = false := by
      intro e he
      refine hclean e ?_
      rw [hsplit]
      refine List.mem_append_right _ ?_
      show e ∈ Element.mk nt na nx nl ncs :: iterAllList ncs
      exact List.mem_cons_of_mem _ he
    split at h
    case _ hp =>
      have hnt : nt = "p".data := hp
      split at h
      case _ hx => exact absurd h (by simp)
      case _ t hx =>
        injection h with h
        rw [← h, if_neg hne]
        rw [backrefHrefs_li, iterAllList_append, List.filter_append, List.map_append,
          filter_backref_nil _ hdl]
        show [] ++ _ = _
        rw [List.nil_append]
        simp only [Element.setText, Element.appendChild, iterAllList, Element.iterAll,
          List.append_nil, iterAllList_append]
        rw [List.filter_cons]
        have hnotA : isBackrefA (Element.mk nt (attrsSet "id".data "ignore".data na) nx nl ncs)
            = false := by
          apply not_backref_of_tag
          simp [Element.tag, hnt]
        have hnotA' : isBackrefA (Element.mk nt na (some (t ++ NBSP_PLACEHOLDER)) nl
            (ncs ++ [backlinkEl cfg index (refCandidate cfg st id)])) = false := by
          apply not_backref_of_tag
          simp [Element.tag, hnt]
        rw [if_neg (by simp [hnotA'])]
        rw [List.filter_append, filter_backref_nil _ hnodeCh]
        rfl
    case _ hp =>
      injection h with h
      rw [← h, if_neg hne]
      rw [backrefHrefs_li, iterAllList_append, List.filter_append, List.map_append]
      rw [filter_backref_nil _ hclean]
      rfl

theorem buildLis_backrefs (cfg : Config) (parse : Str → List Element) :
    ∀ (fns : List (Str × Str)) (st : FnState) (index : Nat) (lis : List Element),
    (∀ p ∈ fns, cleanEls (parse p.2) = true) →
    (buildLis cfg parse st index fns).1 = .ok lis →
    lis.map backrefHrefs
      = fns.map (fun p => if parse p.2 = [] then [] else ['#' :: refCandidate cfg st p.1]) := by
  intro fns
  induction fns with
  | nil =>
    intro st index lis _ h
    injection h with h
    rw [← h]
    rfl
  | cons p rest ih =>
    intro st index lis hcl h
    obtain ⟨id, t⟩ := p
    simp only [buildLis] at h
    split at h
    case _ li st' hbl =>
      have hst : st' = st := by
        have := buildLi_state cfg parse st index id t
        rw [hbl] at this
        exact this
      split at h
      case _ lis' st'' hbs =>
        injection h with h
        rw [← h]
        have h1 : backrefHrefs li
            = if parse t = [] then [] else ['#' :: refCandidate cfg st id] := by
          apply buildLi_backrefs cfg parse st index id t li
            (hcl (id, t) (List.mem_cons_self _ _))
          rw [hbl]
        have h2 := ih st' (index + 1) lis'
          (fun q hq => hcl q (List.mem_cons_of_mem _ hq)) (by rw [hbs])
        simp only [List.map_cons, h1, h2, hst]
      case _ e st'' hbs => simp at h
    case _ e st' hbl => simp at h

/-- C10: building the footnote list consumes no duplicate-tracking state:
`unique_ref` with the defaulted `found = False` returns its argument and
mutates nothing, the whole store state (in particular `used_refs` and
`found_refs`) is identical before and after `makeFootnotesDiv`, and the
only back-link anchor placed in each list item carries the original
non-disambiguated back-reference anchor id. -/
theorem C10_build_frames_duplicate_state (cfg : Config) (parse : Str → List Element)
    (st : FnState) :
    (∀ r, unique_ref cfg st r false = (.ok r, st)) ∧
    (makeFootnotesDiv cfg parse st).2 = st ∧
    (∀ d, (makeFootnotesDiv cfg parse st).1 = .ok (some d) →
      (∀ p ∈ st.footnotes, cleanEls (parse p.2) = true) →
      (divItems d).map backrefHrefs
        = st.footnotes.map
            (fun p => if parse p.2 = [] then [] else ['#' :: refCandidate cfg st p.1])) := by
  refine ⟨fun r => unique_ref_not_found cfg st r, makeFootnotesDiv_state cfg parse st, ?_⟩
  intro d h hcl
  unfold makeFootnotesDiv at h
  by_cases hf : st.footnotes = []
  · rw [if_pos hf] at h
    exact absurd h (by simp)
  · rw [if_neg hf] at h
    split at h
    case _ lis st' hbl =>
      injection h with h
      injection h with h
      rw [← h]
      show lis.map backrefHrefs = _
      exact buildLis_backrefs cfg parse st.footnotes st 1 lis hcl (by rw [hbl])
    case _ e st' hbl => simp at h

theorem C10_witness :
    unique_ref defaultConfig
        ⟨["a".data], [("a".data, "x".data)], 1, [("fnref:a".data, 2)],
         ["fnref2:a".data, "fnref:a".data]⟩ "q".data false
      = (.ok "q".data,
         ⟨["a".data], [("a".data, "x".data)], 1, [("fnref:a".data, 2)],
          ["fnref2:a".data, "fnref:a".data]⟩) ∧
    (makeFootnotesDiv defaultConfig simpleParse
        ⟨["a".data], [("a".data, "x".data)], 1, [("fnref:a".data, 2)],
         ["fnref2:a".data, "fnref:a".data]⟩).2
      = ⟨["a".data], [("a".data, "x".data)], 1, [("fnref:a".data, 2)],
         ["fnref2:a".data, "fnref:a".data]⟩ ∧
    (divItems (Element.mk "div".data [("class".data, "footnote".data)] none none
          [.mk "hr".data [] none none [],
           .mk "ol".data [] none none
             [.mk "li".data [("id".data, "fn:a".data)] none none
               [.mk "p".data [] (some ("x".data ++ NBSP_PLACEHOLDER)) none
                 [.mk "a".data
                   [("href".data, "#fnref:a".data), ("class".data, "footnote-backref".data),
                    ("title".data, "Jump back to footnote 1 in the text".data)]
                   (some FN_BACKLINK_TEXT) none []]]]])).map backrefHrefs
      = [["#fnref:a".data]] := by
  have h := C10_build_frames_duplicate_state defaultConfig simpleParse
    ⟨["a".data], [("a".data, "x".data)], 1, [("fnref:a".data, 2)],
     ["fnref2:a".data, "fnref:a".data]⟩
  refine ⟨h.1 "q".data, h.2.1, ?_⟩
  have h3 := h.2.2 (Element.mk "div".data [("class".data, "footnote".data)] none none
          [.mk "hr".data [] none none [],
           .mk "ol".data [] none none
             [.mk "li".data [("id".data, "fn:a".data)] none none
               [.mk "p".data [] (some ("x".data ++ NBSP_PLACEHOLDER)) none
                 [.mk "a".data
                   [("href".data, "#fnref:a".data), ("class".data, "footnote-backref".data),
                    ("title".data, "Jump back to footnote 1 in the text".data)]
                   (some FN_BACKLINK_TEXT) none []]]]])
    (by decide) (by decide)
  simpa using h3

/-! ## C9: block-processor prefix policy and dedent -/

theorem leadsWith_append (p s : Str) : leadsWith p (p ++ s) = true := by
  induction p with
  | nil => rfl
  | cons c cs ih => simp [leadsWith, ih]

theorem pyStrip_eq_nil_iff (l : Str) : pyStrip l = [] ↔ ∀ c ∈ l, isPySpace c = true := by
  unfold pyStrip pyStripR pyStripL
  rw [List.reverse_eq_nil_iff, List.dropWhile_eq_nil_iff]
  constructor
  · intro h c hc
    rw [← List.takeWhile_append_dropWhile isPySpace l] at hc
    rcases List.mem_append.1 hc with h1 | h2
    · exact List.mem_takeWhile_imp h1
    · exact h c (List.mem_reverse.2 h2)
  · intro h c hc
    have : c ∈ l.dropWhile isPySpace := List.mem_reverse.1 hc
    apply h
    rw [← List.takeWhile_append_dropWhile isPySpace l]
    exact List.mem_append_right _ this

theorem joinLines_allWS (ls : List Str) (h : ∀ l ∈ ls, ∀ c ∈ l, isPySpace c = true) :
    ∀ c ∈ joinLines ls, isPySpace c = true := by
  induction ls with
  | nil => intro c hc; simp [joinLines] at hc
  | cons l rest ih =>
    cases rest with
    | nil => intro c hc; exact h l (by simp) c hc
    | cons l2 rest2 =>
      intro c hc
      simp only [joinLines] at hc
      rcases List.mem_append.1 hc with h1 | h2
      · exact h l (by simp) c h1
      · rcases List.mem_cons.1 h2 with rfl | h3
        · rfl
        · exact ih (fun l' hl' => h l' (List.mem_cons_of_mem _ hl')) c h3

theorem dropWhile_cons_head {α : Type} (p : α → Bool) :
    ∀ (l : List α) (c : α) (cs : List α), l.dropWhile p = c :: cs → p c = false := by
  intro l
  induction l with
  | nil => intro c cs h; simp [List.dropWhile] at h
  | cons a t ih =>
    intro c cs h
    by_cases hp : p a = true
    · rw [List.dropWhile_cons_of_pos hp] at h
      exact ih c cs h
    · rw [List.dropWhile_cons_of_neg hp] at h
      injection h with h1 _
      rw [← h1]
      exact Bool.eq_false_iff.2 hp

theorem mem_of_mem_dropWhile {α : Type} (p : α → Bool) (l : List α) (c : α)
    (h : c ∈ l.dropWhile p) : c ∈ l := by
  rw [← List.takeWhile_append_dropWhile p l]
  exact List.mem_append_right _ h

theorem lineMatch_ws_none (l : Str) (h : ∀ c ∈ l, isPySpace c = true) :
    lineMatch l = none := by
  unfold lineMatch
  split
  · cases hd : l.dropWhile (· = ' ') with
    | nil => rfl
    | cons c1 t =>
      cases t with
      | nil => rfl
      | cons c2 r =>
        have hmem : c1 ∈ l := mem_of_mem_dropWhile _ l c1 (by rw [hd]; simp)
        have hws := h c1 hmem
        have hnb : ¬ (c1 = '[' ∧ c2 = '^') := by
          intro hc
          rw [hc.1] at hws
          exact absurd hws (by decide)
        simp [hnb]
  · rfl

theorem searchLines_skip (ls : List Str) : ∀ pre : List Str,
    (∀ l ∈ pre, lineMatch l = none) →
    searchLines (pre ++ ls)
      = (searchLines ls).map (fun r => (pre ++ r.1, r.2.1, r.2.2.1, r.2.2.2)) := by
  intro pre
  induction pre with
  | nil =>
    intro _
    cases hs : searchLines ls with
    | none => simp [hs]
    | some r =>
      obtain ⟨b, raw, lr, a⟩ := r
      simp [hs]
  | cons l pre ih =>
    intro h
    have hl : lineMatch l = none := h l (List.mem_cons_self _ _)
    have hrec := ih (fun x hx => h x (List.mem_cons_of_mem _ hx))
    simp only [List.cons_append, searchLines, List.append_eq, hl, hrec]
    cases hs : searchLines ls with
    | none => simp [hs]
    | some r =>
      obtain ⟨b, raw, lr, a⟩ := r
      simp [hs]

theorem searchLines_decomp : ∀ (ls b : List Str) (raw : Str) (lr : Str × Str) (a : List Str),
    searchLines ls = some (b, raw, lr, a) →
    ls = b ++ raw :: a ∧ lineMatch raw = some lr ∧ ∀ l ∈ b, lineMatch l = none := by
  intro ls
  induction ls with
  | nil => intro b raw lr a h; simp [searchLines] at h
  | cons l t ih =>
    intro b raw lr a h
    simp only [searchLines] at h
    cases hm : lineMatch l with
    | some lr' =>
      rw [hm] at h
      injection h with h
      injection h with e1 h
      injection h with e2 h
      injection h with e3 e4
      subst e1; subst e2; subst e3; subst e4
      exact ⟨rfl, hm, by simp⟩
    | none =>
      rw [hm] at h
      cases hs : searchLines t with
      | none => rw [hs] at h; simp at h
      | some r =>
        rw [hs] at h
        obtain ⟨b2, raw2, lr2, a2⟩ := r
        simp only [Option.map_some] at h
        injection h with h
        injection h with e1 h
        injection h with e2 h
        injection h with e3 e4
        subst e1; subst e2; subst e3; subst e4
        obtain ⟨d1, d2, d3⟩ := ih b2 raw2 lr2 a2 hs
        refine ⟨by rw [d1]; rfl, d2, ?_⟩
        intro x hx
        rcases List.mem_cons.1 hx with rfl | hx'
        · exact hm
        · exact d3 x hx'

theorem splitLines_ne_nil (s : Str) : splitLines s ≠ [] := by
  cases s with
  | nil => simp [splitLines]
  | cons c cs =>
    simp only [splitLines]
    split
    · simp
    · split <;> simp

theorem splitLines_no_newline : ∀ (s : Str), ∀ l ∈ splitLines s, '\n' ∉ l := by
  intro s
  induction s with
  | nil =>
    intro l hl
    simp [splitLines] at hl
    simp [hl]
  | cons c cs ih =>
    intro l hl
    simp only [splitLines] at hl
    by_cases hc : c = '\n'
    · rw [if_pos hc] at hl
      rcases List.mem_cons.1 hl with rfl | h2
      · simp
      · exact ih l h2
    · rw [if_neg hc] at hl
      cases hs : splitLines cs with
      | nil => exact absurd hs (splitLines_ne_nil cs)
      | cons l0 ls =>
        rw [hs] at hl
        rcases List.mem_cons.1 hl with rfl | h2
        · intro hmem
          rcases List.mem_cons.1 hmem with h3 | h3
          · exact hc h3.symm
          · exact ih l0 (by rw [hs]; exact List.mem_cons_self _ _) h3
        · exact ih l (by rw [hs]; exact List.mem_cons_of_mem _ h2)

theorem splitLines_no_nl_single (l : Str) (h : '\n' ∉ l) : splitLines l = [l] := by
  induction l with
  | nil => rfl
  | cons c cs ih =>
    have hc : ¬ c = '\n' := fun e => h (by rw [e]; exact List.mem_cons_self _ _)
    have hcs : splitLines cs = [cs] := ih (fun hm => h (List.mem_cons_of_mem _ hm))
    simp only [splitLines, if_neg hc, hcs]

theorem splitLines_append_nl (s : Str) : ∀ l : Str, '\n' ∉ l →
    splitLines (l ++ '\n' :: s) = l :: splitLines s := by
  intro l
  induction l with
  | nil => intro _; simp [splitLines]
  | cons c cs ih =>
    intro h
    have hc : ¬ c = '\n' := fun e => h (by rw [e]; exact List.mem_cons_self _ _)
    have hcs := ih (fun hm => h (List.mem_cons_of_mem _ hm))
    simp only [List.cons_append, splitLines, if_neg hc, List.append_eq, hcs]

theorem splitLines_joinLines : ∀ ls : List Str, ls ≠ [] → (∀ l ∈ ls, '\n' ∉ l) →
    splitLines (joinLines ls) = ls := by
  intro ls
  induction ls with
  | nil => intro h _; exact absurd rfl h
  | cons l rest ih =>
    intro _ hnl
    cases rest with
    | nil =>
      show splitLines l = [l]
      exact splitLines_no_nl_single l (hnl l (List.mem_cons_self _ _))
    | cons l2 rest2 =>
      show splitLines (l ++ '\n' :: joinLines (l2 :: rest2)) = _
      rw [splitLines_append_nl _ l (hnl l (List.mem_cons_self _ _))]
      rw [ih (by simp) (fun x hx => hnl x (List.mem_cons_of_mem _ hx))]

/-- C9: (a) when every line before the first definition-marker line is
whitespace-only, the extractor behaves exactly as if the prefix were
absent — in particular nothing is re-queued for the prefix; (b) the
dedent removes exactly one leading 4-space run from each line that
starts with one and leaves every other line (shorter leading whitespace
included) unchanged. -/
theorem C9_prefix_drop_and_detab :
    (∀ (st : FnState) (block : Str) (blocks bLines : List Str) (raw : Str)
       (lr : Str × Str) (aLines : List Str),
       searchLines (splitLines block) = some (bLines, raw, lr, aLines) →
       (∀ l ∈ bLines, pyStrip l = []) →
       blockRun st block blocks = blockRun st (joinLines (raw :: aLines)) blocks) ∧
    (∀ rest : Str, detabLine ("    ".data ++ rest) = rest) ∧
    (∀ line : Str, leadsWith "    ".data line = false → detabLine line = line) ∧
    (∀ block : Str, splitLines (detab block) = (splitLines block).map detabLine) := by
  refine ⟨?_, ?_, ?_, ?_⟩
  · intro st block blocks bLines raw lr aLines hsearch hws
    obtain ⟨hdec, hraw, _⟩ :=
      searchLines_decomp (splitLines block) bLines raw lr aLines hsearch
    have hnl : ∀ l ∈ raw :: aLines, '\n' ∉ l := by
      intro l hl
      apply splitLines_no_newline block
      rw [hdec]
      rcases List.mem_cons.1 hl with rfl | h2
      · exact List.mem_append_right _ (List.mem_cons_self _ _)
      · exact List.mem_append_right _ (List.mem_cons_of_mem _ h2)
    have hsplit2 : splitLines (joinLines (raw :: aLines)) = raw :: aLines :=
      splitLines_joinLines _ (by simp) hnl
    have hsearch2 : searchLines (splitLines (joinLines (raw :: aLines)))
        = some ([], raw, lr, aLines) := by
      rw [hsplit2]
      simp [searchLines, hraw]
    obtain ⟨id, rest0⟩ := lr
    unfold blockRun
    rw [hsearch, hsearch2]
    by_cases hb : bLines = []
    · subst hb
      rfl
    · have hwsAll : ∀ c ∈ joinLines bLines ++ ['\n'], isPySpace c = true := by
        intro c hc
        rcases List.mem_append.1 hc with h1 | h2
        · exact joinLines_allWS bLines
            (fun l hl => (pyStrip_eq_nil_iff l).1 (hws l hl)) c h1
        · rcases List.mem_cons.1 h2 with rfl | h3
          · rfl
          · simp at h3
      have hstrip : pyStrip (joinLines bLines ++ ['\n']) = [] :=
        (pyStrip_eq_nil_iff _).2 hwsAll
      simp [hb, hstrip, show pyStrip [] = [] from rfl]
  · intro rest
    unfold detabLine
    simp only [leadsWith_append, if_true]
    simp [List.drop_left "    ".data rest]
  · intro line h
    unfold detabLine
    rw [h]
    simp
  · intro block
    unfold detab
    apply splitLines_joinLines
    · have := splitLines_ne_nil block
      simp [this]
    · intro l' hl'
      obtain ⟨l, hl, rfl⟩ := List.mem_map.1 hl'
      have hno := splitLines_no_newline block l hl
      unfold detabLine
      split
      · intro hmem
        exact hno (List.mem_of_mem_drop hmem)
      · exact hno

theorem C9_witness :
    searchLines (splitLines "   \n[^a]: x".data)
      = some (["   ".data], "[^a]: x".data, ("a".data, "x".data), []) ∧
    blockRun ⟨[], [], 1, [], []⟩ "   \n[^a]: x".data ["next".data]
      = blockRun ⟨[], [], 1, [], []⟩ (joinLines ["[^a]: x".data]) ["next".data] :=
  ⟨by decide,
   C9_prefix_drop_and_detab.1 ⟨[], [], 1, [], []⟩ "   \n[^a]: x".data ["next".data]
     ["   ".data] "[^a]: x".data ("a".data, "x".data) [] (by decide) (by decide)⟩

/-! ## C8: placeholder search and splice -/

theorem get?_set_self {α : Type} (x : α) :
    ∀ (l : List α) (i : Nat), (l.set i x).get? i = (l.get? i).map (fun _ => x) := by
  intro l
  induction l with
  | nil => intro i; cases i <;> rfl
  | cons a t ih =>
    intro i
    cases i with
    | zero => rfl
    | succ j => simpa using ih j

theorem get?_modifyAt_self {α : Type} (f : α → α) :
    ∀ (l : List α) (i : Nat), (modifyAt f l i).get? i = (l.get? i).map f := by
  intro l
  induction l with
  | nil => intro i; cases i <;> rfl
  | cons a t ih =>
    intro i
    cases i with
    | zero => rfl
    | succ j => simpa [modifyAt] using ih j

theorem modifyAt_length {α : Type} (f : α → α) :
    ∀ (l : List α) (i : Nat), (modifyAt f l i).length = l.length := by
  intro l
  induction l with
  | nil => intro i; rfl
  | cons a t ih =>
    intro i
    cases i with
    | zero => rfl
    | succ j => simpa [modifyAt] using ih j

theorem get?_insertAt_lt {α : Type} (x : α) :
    ∀ (l : List α) (pos i : Nat), pos ≤ l.length → i < pos →
    (insertAt x l pos).get? i = l.get? i := by
  intro l
  induction l with
  | nil =>
    intro pos i hpos hi
    simp at hpos
    subst hpos
    exact absurd hi (by omega)
  | cons a t ih =>
    intro pos i hpos hi
    cases pos with
    | zero => omega
    | succ q =>
      cases i with
      | zero => rfl
      | succ j =>
        show (insertAt x t q).get? j = t.get? j
        exact ih q j (by simpa using hpos) (by omega)

theorem get?_insertAt_self {α : Type} (x : α) :
    ∀ (l : List α) (pos : Nat), pos ≤ l.length →
    (insertAt x l pos).get? pos = some x := by
  intro l
  induction l with
  | nil =>
    intro pos hpos
    simp at hpos
    subst hpos
    rfl
  | cons a t ih =>
    intro pos hpos
    cases pos with
    | zero => rfl
    | succ q =>
      show (insertAt x t q).get? q = some x
      exact ih q (by simpa using hpos)

mutual
theorem finder_none_of_no_marker (marker : Str) : ∀ e : Element,
    hasMarkerE marker e = false → findFootnotesPlaceholder marker e = none
  | .mk t a x l cs => fun h => by
    simp only [hasMarkerE, Bool.or_eq_false_iff] at h
    exact finderChildren_none marker cs 0 h.2

theorem finderChildren_none (marker : Str) : ∀ (cs : List Element) (i : Nat),
    hasMarkerL marker cs = false → finderChildren marker cs i = none
  | [], _ => fun _ => rfl
  | c :: cs, i => fun h => by
    simp only [hasMarkerL, Bool.or_eq_false_iff] at h
    have hrest := finderChildren_none marker cs (i + 1) h.2
    have hc := h.1
    rcases c with ⟨t, a, x, l, ccs⟩
    simp only [hasMarkerE, Bool.or_eq_false_iff] at hc
    have hnone := finder_none_of_no_marker marker (.mk t a x l ccs)
      (by simp [hasMarkerE, hc.1.2, hc.2, hc.1.1])
    simp only [finderChildren, Element.text, Element.tail, hc.1.1, hc.1.2, hnone,
      Bool.false_eq_true, if_false, hrest]
end

mutual
theorem finder_sound (marker : Str) : ∀ (e : Element) (p : List Nat) (b : Bool),
    findFootnotesPlaceholder marker e = some (p, b) →
    ∃ c, getAtPath e p = some c ∧
      optTextHasMarker marker (if b then c.text else c.tail) = true
  | .mk t a x l cs => fun p b h => by
    obtain ⟨k, rest, c0, c, hp, hget, hpath, hmk⟩ := finderChildren_sound marker cs 0 p b h
    refine ⟨c, ?_, hmk⟩
    rw [hp]
    simp only [getAtPath, Element.children, Nat.zero_add, hget, hpath]

theorem finderChildren_sound (marker : Str) :
    ∀ (cs : List Element) (i : Nat) (p : List Nat) (b : Bool),
    finderChildren marker cs i = some (p, b) →
    ∃ k rest c0 c, p = (i + k) :: rest ∧ cs.get? k = some c0 ∧ getAtPath c0 rest = some c ∧
      optTextHasMarker marker (if b then c.text else c.tail) = true
  | [], i, p, b => fun h => by simp [finderChildren] at h
  | c :: cs, i, p, b => fun h => by
    simp only [finderChildren] at h
    by_cases h1 : optTextHasMarker marker c.text = true
    · rw [if_pos h1] at h
      injection h with h
      injection h with hp hb
      refine ⟨0, [], c, c, by rw [← hp]; simp, rfl, rfl, ?_⟩
      rw [← hb]
      simpa using h1
    · rw [if_neg h1] at h
      by_cases h2 : optTextHasMarker marker c.tail = true
      · rw [if_pos h2] at h
        injection h with h
        injection h with hp hb
        refine ⟨0, [], c, c, by rw [← hp]; simp, rfl, rfl, ?_⟩
        rw [← hb]
        simpa using h2
      · rw [if_neg h2] at h
        cases hf : findFootnotesPlaceholder marker c with
        | some r =>
          rw [hf] at h
          obtain ⟨p', b'⟩ := r
          injection h with h
          injection h with hp hb
          obtain ⟨c', hpath, hmk⟩ := finder_sound marker c p' b' hf
          exact ⟨0, p', c, c', by rw [← hp]; simp, rfl, hpath, by rw [← hb]; exact hmk⟩
        | none =>
          rw [hf] at h
          obtain ⟨k, rest, c0, c', hp, hget, hpath, hmk⟩ :=
            finderChildren_sound marker cs (i + 1) p b h
          refine ⟨k + 1, rest, c0, c', by rw [hp]; congr 1; omega, by simpa using hget,
            hpath, hmk⟩
end

theorem findFootnotesPlaceholder_mk (marker : Str) (t : Str) (a : List (Str × Str))
    (x l : Option Str) (cs : List Element) :
    findFootnotesPlaceholder marker (.mk t a x l cs) = finderChildren marker cs 0 := rfl

theorem getAtPath_cons (e : Element) (i : Nat) (p : List Nat) :
    getAtPath e (i :: p) = match e.children.get? i with
      | some c => getAtPath c p
      | none => none := rfl

theorem getAtPath_replaceChildAt (div : Element) :
    ∀ (p : List Nat) (e c : Element), getAtPath e p = some c → p ≠ [] →
    getAtPath (replaceChildAt div p e) p = some div := by
  intro p
  induction p with
  | nil => intro e c _ hne; exact absurd rfl hne
  | cons i q ih =>
    intro e c hget _
    rcases e with ⟨t, a, x, l, cs⟩
    rw [getAtPath_cons] at hget
    simp only [Element.children] at hget
    cases hcs : cs.get? i with
    | none => rw [hcs] at hget; simp at hget
    | some c0 =>
      rw [hcs] at hget
      cases q with
      | nil =>
        show getAtPath (Element.mk t a x l (cs.set i div)) [i] = some div
        rw [getAtPath_cons]
        simp only [Element.children, get?_set_self, hcs, Option.map_some]
        rfl
      | cons j q' =>
        show getAtPath (Element.mk t a x l
          (modifyAt (fun ch => replaceChildAt div (j :: q') ch) cs i)) (i :: j :: q')
          = some div
        rw [getAtPath_cons]
        simp only [Element.children, get?_modifyAt_self, hcs, Option.map_some]
        exact ih c0 c hget (by simp)

theorem getAtPath_insertAfterAt (div : Element) :
    ∀ (p : List Nat) (e c : Element), getAtPath e p = some c → p ≠ [] →
    getAtPath (insertAfterAt div p e) p = some (c.setTail none) ∧
    getAtPath (insertAfterAt div p e) (incLast p) = some div := by
  intro p
  induction p with
  | nil => intro e c _ hne; exact absurd rfl hne
  | cons i q ih =>
    intro e c hget _
    rcases e with ⟨t, a, x, l, cs⟩
    rw [getAtPath_cons] at hget
    simp only [Element.children] at hget
    cases hcs : cs.get? i with
    | none => rw [hcs] at hget; simp at hget
    | some c0 =>
      rw [hcs] at hget
      cases q with
      | nil =>
        have hc0 : c0 = c := by simpa [getAtPath] using hget
        subst hc0
        have hlen : i < cs.length := by
          by_contra hbig
          rw [List.get?_eq_none.2 (by omega)] at hcs
          exact absurd hcs (by simp)
        have hlen' : i + 1 ≤ (modifyAt (fun ch => ch.setTail none) cs i).length := by
          rw [modifyAt_length]
          omega
        constructor
        · show getAtPath (Element.mk t a x l
            (insertAt div (modifyAt (fun ch => ch.setTail none) cs i) (i + 1))) [i]
            = some (c0.setTail none)
          rw [getAtPath_cons]
          simp only [Element.children]
          rw [get?_insertAt_lt div _ (i + 1) i hlen' (by omega)]
          simp only [get?_modifyAt_self, hcs, Option.map_some]
          rfl
        · show getAtPath (Element.mk t a x l
            (insertAt div (modifyAt (fun ch => ch.setTail none) cs i) (i + 1))) [i + 1]
            = some div
          rw [getAtPath_cons]
          simp only [Element.children]
          rw [get?_insertAt_self div _ (i + 1) hlen']
          rfl
      | cons j q' =>
        have hrec := ih c0 c hget (by simp)
        constructor
        · show getAtPath (Element.mk t a x l
            (modifyAt (fun ch => insertAfterAt div (j :: q') ch) cs i)) (i :: j :: q')
            = some (c.setTail none)
          rw [getAtPath_cons]
          simp only [Element.children, get?_modifyAt_self, hcs, Option.map_some]
          exact hrec.1
        · show getAtPath (Element.mk t a x l
            (modifyAt (fun ch => insertAfterAt div (j :: q') ch) cs i)) (incLast (i :: j :: q'))
            = some div
          show getAtPath (Element.mk t a x l
            (modifyAt (fun ch => insertAfterAt div (j :: q') ch) cs i)) (i :: incLast (j :: q'))
            = some div
          rw [getAtPath_cons]
          simp only [Element.children, get?_modifyAt_self, hcs, Option.map_some]
          exact hrec.2

/-- C8: with at least one stored footnote (so the div is built), the
tree-assembly run splices the div at the placeholder — replacing the
matched child in place when the placeholder is in its text, or inserting
the div as the next sibling and clearing the tail when it is in its tail
— and appends the div as the last child of the root when no placeholder
occurs anywhere in the tree. -/
theorem C8_splice_or_append (cfg : Config) (parse : Str → List Element) (st : FnState)
    (root div : Element) (st' : FnState)
    (hdiv : makeFootnotesDiv cfg parse st = (.ok (some div), st')) :
    (hasMarkerE cfg.placeMarker root = false →
       treeRun cfg parse st root = (.ok (root.appendChild div), st')) ∧
    (∀ p, findFootnotesPlaceholder cfg.placeMarker root = some (p, true) →
       ∃ c, getAtPath root p = some c ∧ optTextHasMarker cfg.placeMarker c.text = true ∧
         treeRun cfg parse st root = (.ok (replaceChildAt div p root), st') ∧
         getAtPath (replaceChildAt div p root) p = some div) ∧
    (∀ p, findFootnotesPlaceholder cfg.placeMarker root = some (p, false) →
       ∃ c, getAtPath root p = some c ∧ optTextHasMarker cfg.placeMarker c.tail = true ∧
         treeRun cfg parse st root = (.ok (insertAfterAt div p root), st') ∧
         getAtPath (insertAfterAt div p root) p = some (c.setTail none) ∧
         getAtPath (insertAfterAt div p root) (incLast p) = some div) := by
  refine ⟨?_, ?_, ?_⟩
  · intro hnone
    unfold treeRun
    rw [hdiv, finder_none_of_no_marker cfg.placeMarker root hnone]
  · intro p hfind
    obtain ⟨c, hpath, hmk⟩ := finder_sound cfg.placeMarker root p true hfind
    have hne : p ≠ [] := by
      intro hz
      rw [hz] at hfind
      obtain ⟨rt, ra, rx, rl, rcs⟩ := root
      rw [findFootnotesPlaceholder_mk] at hfind
      obtain ⟨k, rest, c0, c', hp, _, _, _⟩ :=
        finderChildren_sound cfg.placeMarker rcs 0 [] true hfind
      simp at hp
    refine ⟨c, hpath, by simpa using hmk, ?_, getAtPath_replaceChildAt div p root c hpath hne⟩
    unfold treeRun
    rw [hdiv, hfind]
  · intro p hfind
    obtain ⟨c, hpath, hmk⟩ := finder_sound cfg.placeMarker root p false hfind
    have hne : p ≠ [] := by
      intro hz
      rw [hz] at hfind
      obtain ⟨rt, ra, rx, rl, rcs⟩ := root
      rw [findFootnotesPlaceholder_mk] at hfind
      obtain ⟨k, rest, c0, c', hp, _, _, _⟩ :=
        finderChildren_sound cfg.placeMarker rcs 0 [] false hfind
      simp at hp
    obtain ⟨h1, h2⟩ := getAtPath_insertAfterAt div p root c hpath hne
    refine ⟨c, hpath, by simpa using hmk, ?_, h1, h2⟩
    unfold treeRun
    rw [hdiv, hfind]

theorem C8_witness :
    (hasMarkerE defaultConfig.placeMarker
        (Element.mk "div".data [] none none
          [Element.mk "p".data [] (some "hello".data) none []]) = false ∧
      treeRun defaultConfig simpleParse ⟨[], [("a".data, "x".data)], 1, [], []⟩
          (Element.mk "div".data [] none none
            [Element.mk "p".data [] (some "hello".data) none []])
        = (.ok ((Element.mk "div".data [] none none
              [Element.mk "p".data [] (some "hello".data) none []]).appendChild
            (Element.mk "div".data [("class".data, "footnote".data)] none none
              [.mk "hr".data [] none none [],
               .mk "ol".data [] none none
                 [.mk "li".data [("id".data, "fn:a".data)] none none
                   [.mk "p".data [] (some ("x".data ++ NBSP_PLACEHOLDER)) none
                     [.mk "a".data
                       [("href".data, "#fnref:a".data),
                        ("class".data, "footnote-backref".data),
                        ("title".data, "Jump back to footnote 1 in the text".data)]
                       (some FN_BACKLINK_TEXT) none []]]]])),
           ⟨[], [("a".data, "x".data)], 1, [], []⟩)) ∧
    (findFootnotesPlaceholder defaultConfig.placeMarker
        (Element.mk "div".data [] none none
          [Element.mk "p".data [] (some "///Footnotes Go Here///".data) none []])
        = some ([0], true) ∧
      ∃ c, getAtPath (Element.mk "div".data [] none none
            [Element.mk "p".data [] (some "///Footnotes Go Here///".data) none []]) [0]
          = some c ∧
        optTextHasMarker defaultConfig.placeMarker c.text = true ∧
        treeRun defaultConfig simpleParse ⟨[], [("a".data, "x".data)], 1, [], []⟩
            (Element.mk "div".data [] none none
              [Element.mk "p".data [] (some "///Footnotes Go Here///".data) none []])
          = (.ok (replaceChildAt
              (Element.mk "div".data [("class".data, "footnote".data)] none none
                [.mk "hr".data [] none none [],
                 .mk "ol".data [] none none
                   [.mk "li".data [("id".data, "fn:a".data)] none none
                     [.mk "p".data [] (some ("x".data ++ NBSP_PLACEHOLDER)) none
                       [.mk "a".data
                         [("href".data, "#fnref:a".data),
                          ("class".data, "footnote-backref".data),
                          ("title".data, "Jump back to footnote 1 in the text".data)]
                         (some FN_BACKLINK_TEXT) none []]]]]) [0]
              (Element.mk "div".data [] none none
                [Element.mk "p".data [] (some "///Footnotes Go Here///".data) none []])),
             ⟨[], [("a".data, "x".data)], 1, [], []⟩) ∧
        getAtPath (replaceChildAt
            (Element.mk "div".data [("class".data, "footnote".data)] none none
              [.mk "hr".data [] none none [],
               .mk "ol".data [] none none
                 [.mk "li".data [("id".data, "fn:a".data)] none none
                   [.mk "p".data [] (some ("x".data ++ NBSP_PLACEHOLDER)) none
                     [.mk "a".data
                       [("href".data, "#fnref:a".data),
                        ("class".data, "footnote-backref".data),
                        ("title".data, "Jump back to footnote 1 in the text".data)]
                       (some FN_BACKLINK_TEXT) none []]]]]) [0]
            (Element.mk "div".data [] none none
              [Element.mk "p".data [] (some "///Footnotes Go Here///".data) none []])) [0]
          = some (Element.mk "div".data [("class".data, "footnote".data)] none none
              [.mk "hr".data [] none none [],
               .mk "ol".data [] none none
                 [.mk "li".data [("id".data, "fn:a".data)] none none
                   [.mk "p".data [] (some ("x".data ++ NBSP_PLACEHOLDER)) none
                     [.mk "a".data
                       [("href".data, "#fnref:a".data),
                        ("class".data, "footnote-backref".data),
                        ("title".data, "Jump back to footnote 1 in the text".data)]
                       (some FN_BACKLINK_TEXT) none []]]]])) ∧
    (findFootnotesPlaceholder defaultConfig.placeMarker
        (Element.mk "div".data [] none none
          [Element.mk "p".data [] (some "hi".data)
            (some "see ///Footnotes Go Here///".data) []])
        = some ([0], false)) := by
  refine ⟨⟨by decide, ?_⟩, ⟨by decide, ?_⟩, by decide⟩
  · exact (C8_splice_or_append defaultConfig simpleParse
      ⟨[], [("a".data, "x".data)], 1, [], []⟩
      (Element.mk "div".data [] none none
        [Element.mk "p".data [] (some "hello".data) none []]) _ _ (by decide)).1 (by decide)
  · exact (C8_splice_or_append defaultConfig simpleParse
      ⟨[], [("a".data, "x".data)], 1, [], []⟩
      (Element.mk "div".data [] none none
        [Element.mk "p".data [] (some "///Footnotes Go Here///".data) none []]) _ _
      (by decide)).2.1 [0] (by decide)

/-! ## C5: reference numbering under order-by-reference -/

theorem mem_firstOccurAux (x : Str) : ∀ (l seen : List Str),
    x ∈ firstOccurAux seen l ↔ (x ∈ l ∧ x ∉ seen) := by
  intro l
  induction l with
  | nil => intro seen; simp [firstOccurAux]
  | cons y ys ih =>
    intro seen
    simp only [firstOccurAux]
    by_cases hy : y ∈ seen
    · rw [if_pos hy, ih]
      constructor
      · rintro ⟨hx, hn⟩
        exact ⟨List.mem_cons_of_mem _ hx, hn⟩
      · rintro ⟨hx, hn⟩
        rcases List.mem_cons.1 hx with rfl | hx'
        · exact absurd hy hn
        · exact ⟨hx', hn⟩
    · rw [if_neg hy]
      constructor
      · intro hx
        rcases List.mem_cons.1 hx with rfl | hx'
        · exact ⟨List.mem_cons_self _ _, hy⟩
        · obtain ⟨h1, h2⟩ := (ih (y :: seen)).1 hx'
          exact ⟨List.mem_cons_of_mem _ h1,
            fun hz => h2 (List.mem_cons_of_mem _ hz)⟩
      · rintro ⟨hx, hn⟩
        rcases List.mem_cons.1 hx with rfl | hx'
        · exact List.mem_cons_self _ _
        · by_cases hxy : x = y
          · subst hxy
            exact List.mem_cons_self _ _
          · refine List.mem_cons_of_mem _ ((ih (y :: seen)).2 ⟨hx', ?_⟩)
            intro hz
            rcases List.mem_cons.1 hz with h3 | h3
            · exact hxy h3
            · exact hn h3

theorem firstOccurAux_append (l2 : List Str) : ∀ (l1 seen : List Str),
    ∃ zs, firstOccurAux seen (l1 ++ l2) = firstOccurAux seen l1 ++ zs := by
  intro l1
  induction l1 with
  | nil => intro seen; exact ⟨firstOccurAux seen l2, rfl⟩
  | cons y ys ih =>
    intro seen
    simp only [List.cons_append, firstOccurAux, List.append_eq]
    by_cases hy : y ∈ seen
    · rw [if_pos hy, if_pos hy]
      exact ih seen
    · rw [if_neg hy, if_neg hy]
      obtain ⟨zs, hz⟩ := ih (y :: seen)
      exact ⟨zs, by rw [hz]; rfl⟩

theorem idxOf_append (x : Str) : ∀ (l zs : List Str), x ∈ l →
    idxOf x (l ++ zs) = idxOf x l := by
  intro l
  induction l with
  | nil => intro zs h; simp at h
  | cons y ys ih =>
    intro zs h
    by_cases hxy : y = x
    · simp [idxOf, hxy]
    · rcases List.mem_cons.1 h with rfl | h2
      · exact absurd rfl hxy
      · simp [idxOf, hxy, ih zs h2]

theorem firstOccurAux_snoc (x : Str) : ∀ (l seen : List Str),
    firstOccurAux seen (l ++ [x]) =
      if x ∈ l ∨ x ∈ seen then firstOccurAux seen l
      else firstOccurAux seen l ++ [x] := by
  intro l
  induction l with
  | nil =>
    intro seen
    simp only [List.nil_append, firstOccurAux]
    by_cases hx : x ∈ seen
    · simp [hx, firstOccurAux]
    · simp [hx, firstOccurAux]
  | cons y ys ih =>
    intro seen
    simp only [List.cons_append, firstOccurAux, List.append_eq]
    by_cases hy : y ∈ seen
    · rw [if_pos hy, ih seen]
      by_cases hx : x = y ∨ x ∈ ys ∨ x ∈ seen
      · rw [if_pos ?c1, if_pos ?c2, if_pos hy]
        case c1 =>
          rcases hx with rfl | h | h
          · exact Or.inr hy
          · exact Or.inl h
          · exact Or.inr h
        case c2 =>
          rcases hx with rfl | h | h
          · exact Or.inr hy
          · exact Or.inl (List.mem_cons_of_mem _ h)
          · exact Or.inr h
      · rw [if_neg ?c3, if_neg ?c4, if_pos hy]
        case c3 =>
          rintro (h | h)
          · exact hx (Or.inr (Or.inl h))
          · exact hx (Or.inr (Or.inr h))
        case c4 =>
          rintro (h | h)
          · rcases List.mem_cons.1 h with rfl | h2
            · exact hx (Or.inl rfl)
            · exact hx (Or.inr (Or.inl h2))
          · exact hx (Or.inr (Or.inr h))
    · rw [if_neg hy, ih (y :: seen)]
      by_cases hx : x = y ∨ x ∈ ys ∨ x ∈ seen
      · rw [if_pos ?c5, if_pos ?c6, if_neg hy]
        case c5 =>
          rcases hx with rfl | h | h
          · exact Or.inr (List.mem_cons_self _ _)
          · exact Or.inl h
          · exact Or.inr (List.mem_cons_of_mem _ h)
        case c6 =>
          rcases hx with rfl | h | h
          · exact Or.inl (List.mem_cons_self _ _)
          · exact Or.inl (List.mem_cons_of_mem _ h)
          · exact Or.inr h
      · rw [if_neg ?c7, if_neg ?c8, if_neg hy]
        rfl
        case c7 =>
          rintro (h | h)
          · exact hx (Or.inr (Or.inl h))
          · rcases List.mem_cons.1 h with rfl | h2
            · exact hx (Or.inl rfl)
            · exact hx (Or.inr (Or.inr h2))
        case c8 =>
          rintro (h | h)
          · rcases List.mem_cons.1 h with rfl | h2
            · exact hx (Or.inl rfl)
            · exact hx (Or.inr (Or.inl h2))
          · exact hx (Or.inr (Or.inr h))

theorem mem_resolvedOrder (keys refs : List Str) (x : Str) :
    x ∈ resolvedOrder keys refs ↔ x ∈ refs.filter (fun r => decide (r ∈ keys)) := by
  unfold resolvedOrder firstOccur
  rw [mem_firstOccurAux]
  simp

theorem resolvedOrder_snoc_known (keys pre : List Str) (r : Str) (hr : r ∈ keys) :
    resolvedOrder keys (pre ++ [r]) =
      if r ∈ resolvedOrder keys pre then resolvedOrder keys pre
      else resolvedOrder keys pre ++ [r] := by
  unfold resolvedOrder firstOccur
  rw [List.filter_append]
  have hf : List.filter (fun r => decide (r ∈ keys)) [r] = [r] := by simp [hr]
  rw [hf, firstOccurAux_snoc]
  have hiff : (r ∈ List.filter (fun r => decide (r ∈ keys)) pre ∨ r ∈ ([] : List Str)) ↔
      r ∈ firstOccurAux [] (List.filter (fun r => decide (r ∈ keys)) pre) := by
    rw [mem_firstOccurAux]
    simp
  by_cases hm : r ∈ firstOccurAux [] (List.filter (fun r => decide (r ∈ keys)) pre)
  · rw [if_pos (hiff.2 hm), if_pos hm]
  · rw [if_neg (fun hz => hm (hiff.1 hz)), if_neg hm]

theorem resolvedOrder_snoc_unknown (keys pre : List Str) (r : Str) (hr : r ∉ keys) :
    resolvedOrder keys (pre ++ [r]) = resolvedOrder keys pre := by
  unfold resolvedOrder firstOccur
  rw [List.filter_append]
  have hf : List.filter (fun r => decide (r ∈ keys)) [r] = [] := by simp [hr]
  rw [hf, List.append_nil]

theorem resolvedOrder_extends (keys pre rest : List Str) :
    ∃ zs, resolvedOrder keys (pre ++ rest) = resolvedOrder keys pre ++ zs := by
  unfold resolvedOrder firstOccur
  rw [List.filter_append]
  exact firstOccurAux_append _ _ _

theorem addFootnoteRef_fo (st : FnState) (r : Str) :
    (addFootnoteRef st r).footnote_order =
      if r ∈ st.footnote_order then st.footnote_order
      else st.footnote_order ++ [r] := by
  unfold addFootnoteRef
  split <;> simp_all

theorem unique_ref_frame (cfg : Config) (st : FnState) (r : Str) (f : Bool) :
    (unique_ref cfg st r f).2.footnote_order = st.footnote_order ∧
    (unique_ref cfg st r f).2.footnotes = st.footnotes := by
  unfold unique_ref
  split
  · exact ⟨rfl, rfl⟩
  · split <;> simp

theorem handleMatch_snd (cfg : Config) (st : FnState) (id : Str) (h : id ∈ fnKeys st) :
    (handleMatch cfg st id).2 = (makeFootnoteRefId cfg (addFootnoteRef st id) id true).2 := by
  unfold handleMatch
  rw [if_pos h]
  dsimp only
  rcases hm : makeFootnoteRefId cfg (addFootnoteRef st id) id true with ⟨res, st2⟩
  cases res <;> rfl

theorem handleMatch_effects (cfg : Config) (st : FnState) (id : Str) :
    (handleMatch cfg st id).2.footnotes = st.footnotes ∧
    (handleMatch cfg st id).2.footnote_order =
      (if id ∈ fnKeys st then (addFootnoteRef st id).footnote_order
       else st.footnote_order) := by
  by_cases h : id ∈ fnKeys st
  · have hsnd := handleMatch_snd cfg st id h
    have hfr := unique_ref_frame cfg (addFootnoteRef st id)
      (refCandidate cfg (addFootnoteRef st id) id) true
    rw [if_pos h]
    constructor
    · rw [hsnd]
      show (unique_ref cfg (addFootnoteRef st id)
        (refCandidate cfg (addFootnoteRef st id) id) true).2.footnotes = st.footnotes
      rw [hfr.2]
      unfold addFootnoteRef
      split <;> rfl
    · rw [hsnd]
      exact hfr.1
  · rw [if_neg h, handleMatch_unknown cfg st id h]
    exact ⟨rfl, rfl⟩

theorem handleMatch_num (cfg : Config) (st : FnState) (id : Str) (el : Element)
    (hdef : cfg.useDefinitionOrder = false)
    (h : (handleMatch cfg st id).1 = .ok (some el)) :
    supNumText el = some (format1
      (natToStr (idxOf id (addFootnoteRef st id).footnote_order + 1))
      cfg.superscriptText) := by
  by_cases hk : id ∈ fnKeys st
  · have haux : ∀ (pr : URes × FnState) (S : Str → FnState → Element),
        (match pr with
         | (.ok refid, st2) => (Except.ok (some (S refid st2)), st2)
         | (_, st2) => ((Except.error () : Except Unit (Option Element)), st2)).1
        = match pr.1 with
          | .ok refid => Except.ok (some (S refid pr.2))
          | _ => Except.error () := by
      rintro ⟨res2, stx⟩ S
      cases res2 <;> rfl
    have hred : (handleMatch cfg st id).1
        = match (makeFootnoteRefId cfg (addFootnoteRef st id) id true).1 with
          | .ok refid => Except.ok (some (Element.mk "sup".data [("id".data, refid)] none none
              [Element.mk "a".data
                [("href".data,
                  '#' :: makeFootnoteId cfg (makeFootnoteRefId cfg (addFootnoteRef st id) id true).2 id),
                 ("class".data, "footnote-ref".data)]
                (some (format1 (natToStr (if !cfg.useDefinitionOrder
                  then idxOf id (addFootnoteRef st id).footnote_order + 1
                  else idxOf id (fnKeys (addFootnoteRef st id)) + 1)) cfg.superscriptText))
                none []]))
          | _ => Except.error () := by
      unfold handleMatch
      rw [if_pos hk]
      dsimp only
      exact haux _ _
    rcases hm : makeFootnoteRefId cfg (addFootnoteRef st id) id true with ⟨res, st2⟩
    rw [hm] at hred
    cases res with
    | ok refid =>
      rw [hred] at h
      injection h with h
      injection h with h
      rw [← h]
      rw [hdef]
      rfl
    | valueError =>
      rw [hred] at h
      simp at h
    | noFuel =>
      rw [hred] at h
      simp at h
  · rw [handleMatch_unknown cfg st id hk] at h
    simp at h

theorem processRefs_nums (cfg : Config) (hdef : cfg.useDefinitionOrder = false) :
    ∀ (refs : List Str) (st : FnState) (pre : List Str),
    st.footnote_order = resolvedOrder (fnKeys st) pre →
    ∀ (k : Nat) (id : Str) (el : Element), refs.get? k = some id →
    ((processRefs cfg st refs).2.get? k) = some (.ok (some el)) →
    supNumText el = some (format1
      (natToStr (idxOf id (resolvedOrder (fnKeys st) (pre ++ refs)) + 1))
      cfg.superscriptText) := by
  intro refs
  induction refs with
  | nil =>
    intro st pre _ k id el hk _
    simp at hk
  | cons r rest ih =>
    intro st pre hfo k id el hk hout
    have heff := handleMatch_effects cfg st r
    cases k with
    | zero =>
      injection hk with hk
      have hel : (handleMatch cfg st r).1 = .ok (some el) := by
        have hget : (processRefs cfg st (r :: rest)).2.get? 0
            = some (handleMatch cfg st r).1 := by
          show ((handleMatch cfg st r).1
              :: (processRefs cfg (handleMatch cfg st r).2 rest).2).get? 0
            = some (handleMatch cfg st r).1
          rfl
        rw [hget] at hout
        exact Option.some.inj hout
      have hnum := handleMatch_num cfg st r el hdef hel
      have hk2 : r ∈ fnKeys st := by
        by_contra hz
        rw [handleMatch_unknown cfg st r hz] at hel
        simp at hel
      rw [hnum, ← hk]
      have hfo1 : (addFootnoteRef st r).footnote_order
          = resolvedOrder (fnKeys st) (pre ++ [r]) := by
        rw [addFootnoteRef_fo, hfo, resolvedOrder_snoc_known _ _ _ hk2]
      have hmem : r ∈ resolvedOrder (fnKeys st) (pre ++ [r]) := by
        rw [mem_resolvedOrder]
        rw [List.filter_append]
        refine List.mem_append_right _ ?_
        simp [hk2]
      obtain ⟨zs, hzs⟩ := resolvedOrder_extends (fnKeys st) (pre ++ [r]) rest
      have hsame : resolvedOrder (fnKeys st) (pre ++ r :: rest)
          = resolvedOrder (fnKeys st) (pre ++ [r]) ++ zs := by
        rw [← hzs]
        congr 1
        simp
      rw [hsame, idxOf_append _ _ _ hmem, hfo1]
    | succ j =>
      have hout' : (processRefs cfg (handleMatch cfg st r).2 rest).2.get? j
          = some (.ok (some el)) := by
        have : (processRefs cfg st (r :: rest)).2
            = (handleMatch cfg st r).1 :: (processRefs cfg (handleMatch cfg st r).2 rest).2 := by
          show ((handleMatch cfg st r).1 :: (processRefs cfg (handleMatch cfg st r).2 rest).2) = _
          rfl
        rw [this] at hout
        simpa using hout
      have hkeys : fnKeys (handleMatch cfg st r).2 = fnKeys st := by
        unfold fnKeys
        rw [heff.1]
      have hfo' : (handleMatch cfg st r).2.footnote_order
          = resolvedOrder (fnKeys (handleMatch cfg st r).2) (pre ++ [r]) := by
        rw [hkeys, heff.2]
        by_cases hr : r ∈ fnKeys st
        · rw [if_pos hr, addFootnoteRef_fo, hfo, resolvedOrder_snoc_known _ _ _ hr]
        · rw [if_neg hr, hfo, resolvedOrder_snoc_unknown _ _ _ hr]
      have hres := ih (handleMatch cfg st r).2 (pre ++ [r]) hfo' j id el
        (by simpa using hk) hout'
      rw [hkeys] at hres
      rw [hres]
      congr 3
      simp

/-- C5: under the default order-by-reference policy, the render number
carried by each constructed reference node (its superscript text, via the
default-shaped template) is the 1-based position of the label's first
resolution in the reference-order list; in particular for `[^a]`, `[^b]`,
`[^a]` with both labels defined the numbers are 1, 2, 1. -/
theorem C5_reference_numbering (cfg : Config) (st : FnState) (refs : List Str)
    (k : Nat) (id : Str) (el : Element)
    (hdef : cfg.useDefinitionOrder = false)
    (hfo : st.footnote_order = [])
    (hk : refs.get? k = some id)
    (hout : ((processRefs cfg st refs).2.get? k) = some (.ok (some el))) :
    supNumText el = some (format1
      (natToStr (idxOf id (resolvedOrder (fnKeys st) refs) + 1))
      cfg.superscriptText) := by
  have := processRefs_nums cfg hdef refs st [] (by rw [hfo]; rfl) k id el hk hout
  simpa using this

theorem C5_witness :
    ((processRefs defaultConfig ⟨[], [("a".data, "xa".data), ("b".data, "xb".data)], 1, [], []⟩
        ["a".data, "b".data, "a".data]).2.get? 0
      = some (.ok (some (Element.mk "sup".data [("id".data, "fnref:a".data)] none none
          [Element.mk "a".data
            [("href".data, "#fn:a".data), ("class".data, "footnote-ref".data)]
            (some "1".data) none []]))) ∧
     supNumText (Element.mk "sup".data [("id".data, "fnref:a".data)] none none
          [Element.mk "a".data
            [("href".data, "#fn:a".data), ("class".data, "footnote-ref".data)]
            (some "1".data) none []]) = some "1".data) ∧
    ((processRefs defaultConfig ⟨[], [("a".data, "xa".data), ("b".data, "xb".data)], 1, [], []⟩
        ["a".data, "b".data, "a".data]).2.get? 1
      = some (.ok (some (Element.mk "sup".data [("id".data, "fnref:b".data)] none none
          [Element.mk "a".data
            [("href".data, "#fn:b".data), ("class".data, "footnote-ref".data)]
            (some "2".data) none []]))) ∧
     supNumText (Element.mk "sup".data [("id".data, "fnref:b".data)] none none
          [Element.mk "a".data
            [("href".data, "#fn:b".data), ("class".data, "footnote-ref".data)]
            (some "2".data) none []]) = some "2".data) ∧
    ((processRefs defaultConfig ⟨[], [("a".data, "xa".data), ("b".data, "xb".data)], 1, [], []⟩
        ["a".data, "b".data, "a".data]).2.get? 2
      = some (.ok (some (Element.mk "sup".data [("id".data, "fnref2:a".data)] none none
          [Element.mk "a".data
            [("href".data, "#fn:a".data), ("class".data, "footnote-ref".data)]
            (some "1".data) none []]))) ∧
     supNumText (Element.mk "sup".data [("id".data, "fnref2:a".data)] none none
          [Element.mk "a".data
            [("href".data, "#fn:a".data), ("class".data, "footnote-ref".data)]
            (some "1".data) none []]) = some "1".data) :=
  ⟨⟨by decide,
    (C5_reference_numbering defaultConfig
      ⟨[], [("a".data, "xa".data), ("b".data, "xb".data)], 1, [], []⟩
      ["a".data, "b".data, "a".data] 0 "a".data _ rfl rfl (by decide) (by decide)).trans
      (by decide)⟩,
   ⟨by decide,
    (C5_reference_numbering defaultConfig
      ⟨[], [("a".data, "xa".data), ("b".data, "xb".data)], 1, [], []⟩
      ["a".data, "b".data, "a".data] 1 "b".data _ rfl rfl (by decide) (by decide)).trans
      (by decide)⟩,
   ⟨by decide,
    (C5_reference_numbering defaultConfig
      ⟨[], [("a".data, "xa".data), ("b".data, "xb".data)], 1, [], []⟩
      ["a".data, "b".data, "a".data] 2 "a".data _ rfl rfl (by decide) (by decide)).trans
      (by decide)⟩⟩

/-! ## C4: the disambiguation loop of `unique_ref` -/

theorem isDigitCh_digitChar : ∀ d : Nat, isDigitCh (digitChar d) = true
  | 0 => rfl
  | 1 => rfl
  | 2 => rfl
  | 3 => rfl
  | 4 => rfl
  | 5 => rfl
  | 6 => rfl
  | 7 => rfl
  | 8 => rfl
  | _ + 9 => rfl

theorem digitChar_val : ∀ d : Nat, d < 10 → (digitChar d).toNat - 48 = d := by
  intro d hd
  interval_cases d <;> decide

theorem digitsToNat_append_one (s : Str) (c : Char) :
    digitsToNat (s ++ [c]) = 10 * digitsToNat s + (c.toNat - 48) := by
  unfold digitsToNat
  rw [List.foldl_append]
  rfl

theorem natToStrAux_spec : ∀ (fuel n : Nat), n < fuel →
    natToStrAux fuel n ≠ [] ∧ (∀ c ∈ natToStrAux fuel n, isDigitCh c = true) ∧
    digitsToNat (natToStrAux fuel n) = n := by
  intro fuel
  induction fuel with
  | zero => intro n h; omega
  | succ f ih =>
    intro n h
    by_cases h10 : n < 10
    · unfold natToStrAux
      rw [if_pos h10]
      refine ⟨by simp, ?_, ?_⟩
      · intro c hc
        rw [List.mem_singleton.1 hc]
        exact isDigitCh_digitChar n
      · show digitsToNat ([] ++ [digitChar n]) = n
        rw [digitsToNat_append_one]
        rw [digitChar_val n h10]
        have hz : digitsToNat ([] : Str) = 0 := rfl
        rw [hz]
        omega
    · unfold natToStrAux
      rw [if_neg h10]
      have hdiv : n / 10 < f := by omega
      obtain ⟨hne, hdig, hval⟩ := ih (n / 10) hdiv
      refine ⟨by simp, ?_, ?_⟩
      · intro c hc
        rcases List.mem_append.1 hc with h1 | h2
        · exact hdig c h1
        · rw [List.mem_singleton.1 h2]
          exact isDigitCh_digitChar (n % 10)
      · rw [digitsToNat_append_one, hval, digitChar_val (n % 10) (Nat.mod_lt _ (by norm_num))]
        omega

theorem natToStr_ne_nil (n : Nat) : natToStr n ≠ [] :=
  (natToStrAux_spec (n + 1) n (by omega)).1

theorem natToStr_digits (n : Nat) : ∀ c ∈ natToStr n, isDigitCh c = true :=
  (natToStrAux_spec (n + 1) n (by omega)).2.1

theorem digitsToNat_natToStr (n : Nat) : digitsToNat (natToStr n) = n :=
  (natToStrAux_spec (n + 1) n (by omega)).2.2

theorem natToStr_inj (n m : Nat) (h : natToStr n = natToStr m) : n = m := by
  have := digitsToNat_natToStr n
  rw [h, digitsToNat_natToStr] at this
  omega

theorem takeWhile_append_stop {α : Type} (p : α → Bool) :
    ∀ (a : List α) (c : α) (b : List α), (∀ x ∈ a, p x = true) → p c = false →
    (a ++ c :: b).takeWhile p = a ∧ (a ++ c :: b).dropWhile p = c :: b := by
  intro a
  induction a with
  | nil =>
    intro c b _ hc
    constructor
    · simp [List.takeWhile_cons, hc]
    · simp [List.dropWhile_cons, hc]
  | cons x a ih =>
    intro c b ha hc
    have hx : p x = true := ha x (List.mem_cons_self _ _)
    obtain ⟨h1, h2⟩ := ih c b (fun y hy => ha y (List.mem_cons_of_mem _ hy)) hc
    constructor
    · simp [List.takeWhile_cons, hx, h1]
    · simp [List.dropWhile_cons, hx, h2]

theorem takeWhile_all {α : Type} (p : α → Bool) :
    ∀ (a : List α), (∀ x ∈ a, p x = true) → a.takeWhile p = a := by
  intro a
  induction a with
  | nil => intro _; rfl
  | cons x a ih =>
    intro h
    simp [List.takeWhile_cons, h x (List.mem_cons_self _ _),
      ih (fun y hy => h y (List.mem_cons_of_mem _ hy))]

theorem leadsWith_cons_ne (c x : Char) (s' rest : Str) (h : x ≠ c) :
    leadsWith (c :: s') (x :: rest) = false := by
  simp only [leadsWith, Bool.and_eq_false_iff]
  left
  simpa using fun e : c = x => h e.symm

theorem pySplit1Go_append (c : Char) (s' : Str) : ∀ (pre post : Str),
    (∀ x ∈ pre, x ≠ c) →
    pySplit1.pySplit1Go (c :: s') (pre ++ (c :: s') ++ post) = some (pre, post) := by
  intro pre
  induction pre with
  | nil =>
    intro post _
    show pySplit1.pySplit1Go (c :: s') (c :: (s' ++ post)) = some ([], post)
    unfold pySplit1.pySplit1Go
    rw [if_pos (by simpa using leadsWith_append (c :: s') post)]
    simp [List.drop_left (c :: s') post]
  | cons x pre ih =>
    intro post h
    have hx : x ≠ c := h x (List.mem_cons_self _ _)
    show pySplit1.pySplit1Go (c :: s') (x :: (pre ++ (c :: s') ++ post)) = some (x :: pre, post)
    unfold pySplit1.pySplit1Go
    rw [if_neg (by simp [leadsWith_cons_ne c x s' _ hx])]
    rw [ih post (fun y hy => h y (List.mem_cons_of_mem _ hy))]
    rfl

theorem pySplit1_sep_append (c : Char) (s' : Str) (pre post : Str)
    (h : ∀ x ∈ pre, x ≠ c) :
    pySplit1 (c :: s') (pre ++ (c :: s') ++ post) = some (pre, post) := by
  unfold pySplit1
  rw [if_neg (by simp)]
  exact pySplit1Go_append c s' pre post h

theorem matchRefId_fnref_num (n : Nat) (rest : Str) (hrest : ∀ c ∈ rest, isDigitCh c = false) :
    matchRefId (FNREF ++ natToStr n ++ rest) = some n := by
  unfold matchRefId
  rw [List.append_assoc]
  rw [if_pos (by simpa using leadsWith_append FNREF (natToStr n ++ rest))]
  have hdrop : (FNREF ++ (natToStr n ++ rest)).drop 5 = natToStr n ++ rest :=
    List.drop_left FNREF (natToStr n ++ rest)
  rw [hdrop]
  have htw : (natToStr n ++ rest).takeWhile isDigitCh = natToStr n := by
    cases hr : rest with
    | nil => rw [List.append_nil]; exact takeWhile_all _ _ (natToStr_digits n)
    | cons c0 r0 =>
      exact (takeWhile_append_stop isDigitCh (natToStr n) c0 r0 (natToStr_digits n)
        (hrest c0 (by rw [hr]; exact List.mem_cons_self _ _))).1
  rw [htw]
  show (if natToStr n = [] then none else some (digitsToNat (natToStr n))) = some n
  rw [if_neg (natToStr_ne_nil n), digitsToNat_natToStr]

theorem sep_chars (sep : Str) (hs : sepOK sep) :
    ∃ c s', sep = c :: s' ∧ c ∉ "fnref0123456789#".data := by
  cases sep with
  | nil => exact absurd hs (by simp [sepOK])
  | cons c s' => exact ⟨c, s', rfl, hs⟩

theorem fnref_mem_big : ∀ x ∈ FNREF, x ∈ "fnref0123456789#".data := by decide

theorem digit_mem_big (x : Char) (h : isDigitCh x = true) : x ∈ "fnref0123456789#".data := by
  have : x ∈ "0123456789".data := by simpa [isDigitCh] using h
  fin_cases this <;> decide

theorem dis_one (sep tail : Str) : dis sep tail 1 = FNREF ++ sep ++ tail := rfl

theorem dis_ge_two (sep tail : Str) (n : Nat) (hn : 2 ≤ n) :
    dis sep tail n = FNREF ++ natToStr n ++ sep ++ tail := by
  unfold dis
  rw [if_neg (by omega)]

theorem refStep_dis (sep tail : Str) (hsep : sepOK sep) (n : Nat) (hn : 1 ≤ n) :
    refStep sep (dis sep tail n) = some (dis sep tail (n + 1)) := by
  obtain ⟨c, s', rfl, hc⟩ := sep_chars sep hsep
  rcases Nat.lt_or_ge n 2 with h2 | h2
  · have hn1 : n = 1 := by omega
    subst hn1
    rw [dis_one]
    unfold refStep
    rw [pySplit1_sep_append c s' FNREF tail
      (fun x hx e => hc (e ▸ fnref_mem_big x hx))]
    have hm : matchRefId FNREF = none := by decide
    simp only [hm]
    rw [dis_ge_two _ _ 2 (by omega)]
  · rw [dis_ge_two _ _ n h2]
    unfold refStep
    have hpre : ∀ x ∈ FNREF ++ natToStr n, x ≠ c := by
      intro x hx e
      rcases List.mem_append.1 hx with h1 | h1
      · exact hc (e ▸ fnref_mem_big x h1)
      · exact hc (e ▸ digit_mem_big x (natToStr_digits n x h1))
    have hsplit : pySplit1 (c :: s') (FNREF ++ natToStr n ++ (c :: s') ++ tail)
        = some (FNREF ++ natToStr n, tail) := by
      have := pySplit1_sep_append c s' (FNREF ++ natToStr n) tail hpre
      simpa [List.append_assoc] using this
    rw [show FNREF ++ natToStr n ++ (c :: s') ++ tail
        = FNREF ++ natToStr n ++ ((c :: s') ++ tail) from by simp, ← List.append_assoc] at hsplit
    rw [hsplit]
    have hm : matchRefId (FNREF ++ natToStr n) = some n := by
      have := matchRefId_fnref_num n [] (by simp)
      simpa using this
    simp only [hm]
    rw [dis_ge_two _ _ (n + 1) (by omega)]

theorem dis_one_inj (sep tail tail' : Str) (h : dis sep tail 1 = dis sep tail' 1) :
    tail = tail' := by
  rw [dis_one, dis_one] at h
  exact List.append_cancel_left h

theorem dis_ne_one_ge (sep : Str) (hsep : sepOK sep) (tail tail' : Str) (m : Nat)
    (hm : 2 ≤ m) : dis sep tail 1 ≠ dis sep tail' m := by
  obtain ⟨c, s', rfl, hc⟩ := sep_chars sep hsep
  intro h
  rw [dis_one, dis_ge_two _ _ m hm] at h
  have h' : (c :: s') ++ tail = natToStr m ++ ((c :: s') ++ tail') := by
    have h2 := List.append_cancel_left (show FNREF ++ ((c :: s') ++ tail)
        = FNREF ++ (natToStr m ++ ((c :: s') ++ tail')) by
      simpa [List.append_assoc] using h)
    exact h2
  obtain ⟨d, ds, hds⟩ : ∃ d ds, natToStr m = d :: ds := by
    cases hnm : natToStr m with
    | nil => exact absurd hnm (natToStr_ne_nil m)
    | cons d ds => exact ⟨d, ds, rfl⟩
  rw [hds] at h'
  injection h' with h1 _
  apply hc
  rw [h1]
  exact digit_mem_big d (natToStr_digits m d (by rw [hds]; exact List.mem_cons_self _ _))

theorem dis_inj_ge (sep : Str) (hsep : sepOK sep) (tail tail' : Str) (n m : Nat)
    (hn : 2 ≤ n) (hm : 2 ≤ m) (h : dis sep tail n = dis sep tail' m) :
    n = m ∧ tail = tail' := by
  obtain ⟨c, s', rfl, hc⟩ := sep_chars sep hsep
  rw [dis_ge_two _ _ n hn, dis_ge_two _ _ m hm] at h
  have h' : natToStr n ++ (c :: (s' ++ tail)) = natToStr m ++ (c :: (s' ++ tail')) := by
    have h2 := List.append_cancel_left (show FNREF ++ (natToStr n ++ (c :: (s' ++ tail)))
        = FNREF ++ (natToStr m ++ (c :: (s' ++ tail'))) by
      simpa [List.append_assoc] using h)
    exact h2
  have hcd : isDigitCh c = false := by
    by_contra hx
    exact hc (digit_mem_big c (by simpa using hx))
  have e1 := (takeWhile_append_stop isDigitCh (natToStr n) c (s' ++ tail)
    (natToStr_digits n) hcd).1
  have e2 := (takeWhile_append_stop isDigitCh (natToStr m) c (s' ++ tail')
    (natToStr_digits m) hcd).1
  have heq : natToStr n = natToStr m := by
    rw [← e1, ← e2, h']
  have hnm : n = m := natToStr_inj _ _ heq
  refine ⟨hnm, ?_⟩
  subst hnm
  rw [heq] at h'
  have h3 := List.append_cancel_left h'
  injection h3 with _ h4
  exact List.append_cancel_left h4

theorem length_le_of_nodup_subset {α : Type} [DecidableEq α] (L M : List α)
    (hnd : L.Nodup) (hsub : ∀ x ∈ L, x ∈ M) : L.length ≤ M.length := by
  calc L.length = L.toFinset.card := (List.toFinset_card_of_nodup hnd).symm
  _ ≤ M.toFinset.card := Finset.card_le_card (fun x hx => by
      rw [List.mem_toFinset] at hx ⊢
      exact hsub x hx)
  _ ≤ M.length := M.toFinset_card_le

theorem exists_unused_dis (sep tail : Str) (hsep : sepOK sep) (used : List Str) :
    ∃ K, 2 ≤ K ∧ K ≤ used.length + 2 ∧ dis sep tail K ∉ used := by
  by_contra hno
  push_neg at hno
  have hndL : ((List.range (used.length + 1)).map (fun i => dis sep tail (i + 2))).Nodup := by
    apply List.Nodup.map_on
    · intro x _ y _ hxy
      have := (dis_inj_ge sep hsep tail tail (x + 2) (y + 2) (by omega) (by omega) hxy).1
      omega
    · exact List.nodup_range _
  have hsubL : ∀ x ∈ (List.range (used.length + 1)).map (fun i => dis sep tail (i + 2)),
      x ∈ used := by
    intro x hx
    obtain ⟨i, hi, rfl⟩ := List.mem_map.1 hx
    have hi' : i < used.length + 1 := List.mem_range.1 hi
    exact hno (i + 2) (by omega) (by omega)
  have := length_le_of_nodup_subset _ used hndL hsubL
  simp only [List.length_map, List.length_range] at this
  omega

theorem uniqueRefLoop_dis (sep tail : Str) (hsep : sepOK sep) (used : List Str) :
    ∀ (fuel n K : Nat), 1 ≤ n → n ≤ K → K ≤ n + fuel →
    dis sep tail K ∉ used →
    (∀ j, n ≤ j → j < K → dis sep tail j ∈ used) →
    uniqueRefLoop sep used fuel (dis sep tail n) = .ok (dis sep tail K) := by
  intro fuel
  induction fuel with
  | zero =>
    intro n K h1 h2 h3 hK hall
    have hnK : K = n := by omega
    subst hnK
    unfold uniqueRefLoop
    rw [if_neg hK]
  | succ f ih =>
    intro n K h1 h2 h3 hK hall
    by_cases hn : dis sep tail n ∈ used
    · have hKn : n < K := by
        rcases Nat.lt_or_ge n K with h | h
        · exact h
        · exfalso
          have : K = n := by omega
          rw [this] at hK
          exact hK hn
      unfold uniqueRefLoop
      rw [if_pos hn]
      show (match refStep sep (dis sep tail n) with
        | none => URes.valueError
        | some r => uniqueRefLoop sep used f r) = _
      rw [refStep_dis sep tail hsep n h1]
      show uniqueRefLoop sep used f (dis sep tail (n + 1)) = _
      exact ih (n + 1) K (by omega) (by omega) (by omega) hK
        (fun j hj1 hj2 => hall j (by omega) hj2)
    · have hKn : K = n := by
        by_contra hne
        have hlt : n < K := by omega
        exact hn (hall n (le_refl n) hlt)
      subst hKn
      unfold uniqueRefLoop
      rw [if_neg hn]

theorem refCandidate_eq_dis (cfg : Config) (st : FnState) (id : Str) :
    refCandidate cfg st id = dis cfg.sep (refTail cfg st id) 1 := by
  unfold refCandidate refTail
  split <;> simp [dis_one, List.append_assoc]

/-- C4: when the candidate back-reference anchor id is already in the
used-ids set, `makeFootnoteRefId` with duplicate tracking enabled returns
the first unused entry of the disambiguation chain — the candidate with a
numeric suffix `K` spliced in directly after the fixed `fnref` token and
before the first separator, for the least `K ≥ 2` whose id is unused —
then adds it to the used-ids set and increments the found-refs counter
keyed by the original non-disambiguated candidate. -/
theorem C4_numeric_suffix_disambiguation (cfg : Config) (st : FnState) (id : Str)
    (hsep : sepOK cfg.sep)
    (hin : refCandidate cfg st id ∈ st.used_refs) :
    ∃ K, 2 ≤ K ∧
      dis cfg.sep (refTail cfg st id) K ∉ st.used_refs ∧
      (∀ j, 2 ≤ j → j < K → dis cfg.sep (refTail cfg st id) j ∈ st.used_refs) ∧
      makeFootnoteRefId cfg st id true
        = (.ok (dis cfg.sep (refTail cfg st id) K),
           { st with
              used_refs := addUsed (dis cfg.sep (refTail cfg st id) K) st.used_refs,
              found_refs := bumpFound (refCandidate cfg st id) st.found_refs }) := by
  obtain ⟨K0, hK0a, hK0b, hK0c⟩ := exists_unused_dis cfg.sep (refTail cfg st id) hsep
    st.used_refs
  have hex : ∃ K, 2 ≤ K ∧ dis cfg.sep (refTail cfg st id) K ∉ st.used_refs :=
    ⟨K0, hK0a, hK0c⟩
  have hPK := Nat.find_spec hex
  have hKle : Nat.find hex ≤ K0 := Nat.find_min' hex ⟨hK0a, hK0c⟩
  refine ⟨Nat.find hex, hPK.1, hPK.2, ?_, ?_⟩
  · intro j hj2 hjK
    by_contra hz
    exact Nat.find_min hex hjK ⟨hj2, hz⟩
  · have hall : ∀ j, 1 ≤ j → j < Nat.find hex → dis cfg.sep (refTail cfg st id) j
        ∈ st.used_refs := by
      intro j hj1 hjK
      rcases Nat.lt_or_ge j 2 with hj2 | hj2
      · have hj : j = 1 := by omega
        rw [hj, ← refCandidate_eq_dis]
        exact hin
      · by_contra hz
        exact Nat.find_min hex hjK ⟨hj2, hz⟩
    have hloop := uniqueRefLoop_dis cfg.sep (refTail cfg st id) hsep st.used_refs
      (st.used_refs.length + 1) 1 (Nat.find hex) (by omega) (by omega) (by omega)
      hPK.2 hall
    unfold makeFootnoteRefId unique_ref
    rw [refCandidate_eq_dis]
    show (match uniqueRefLoop cfg.sep st.used_refs (st.used_refs.length + 1)
        (dis cfg.sep (refTail cfg st id) 1) with
      | .ok r => (URes.ok r,
          { st with used_refs := addUsed r st.used_refs,
                    found_refs := bumpFound (dis cfg.sep (refTail cfg st id) 1) st.found_refs })
      | e => (e, st)) = _
    rw [hloop, ← refCandidate_eq_dis]

theorem C4_witness :
    ∃ K, 2 ≤ K ∧
      dis defaultConfig.sep (refTail defaultConfig c4st "a".data) K ∉ c4st.used_refs ∧
      (∀ j, 2 ≤ j → j < K →
        dis defaultConfig.sep (refTail defaultConfig c4st "a".data) j ∈ c4st.used_refs) ∧
      makeFootnoteRefId defaultConfig c4st "a".data true
        = (.ok (dis defaultConfig.sep (refTail defaultConfig c4st "a".data) K),
           { c4st with
              used_refs := addUsed (dis defaultConfig.sep (refTail defaultConfig c4st "a".data) K)
                c4st.used_refs,
              found_refs := bumpFound (refCandidate defaultConfig c4st "a".data)
                c4st.found_refs }) :=
  C4_numeric_suffix_disambiguation defaultConfig c4st "a".data
    (by unfold sepOK defaultConfig; decide) (by decide)

/-! ## C3: duplicate back-links -/

theorem refTailN_inj (cfg : Config) (u : Nat) (id id' : Str)
    (h : refTailN cfg u id = refTailN cfg u id') : id = id' := by
  unfold refTailN at h
  split at h
  · exact List.append_cancel_left h
  · exact h

theorem refTail_eq_refTailN (cfg : Config) (st : FnState) (id : Str) :
    refTail cfg st id = refTailN cfg st.uniquePrefixNum id := rfl

theorem makeFootnoteId_eq (cfg : Config) (st : FnState) (id : Str) :
    makeFootnoteId cfg st id
      = "fn".data ++ cfg.sep ++ refTailN cfg st.uniquePrefixNum id := by
  unfold makeFootnoteId refTailN
  split <;> simp [List.append_assoc]

theorem dis_inj_n (sep : Str) (hsep : sepOK sep) (tail tail' : Str) (n m : Nat)
    (hn : 1 ≤ n) (hm : 1 ≤ m) (h : dis sep tail n = dis sep tail' m) :
    n = m ∧ tail = tail' := by
  rcases Nat.lt_or_ge n 2 with h2 | h2
  · have hn1 : n = 1 := by omega
    subst hn1
    rcases Nat.lt_or_ge m 2 with hm2 | hm2
    · have hm1 : m = 1 := by omega
      subst hm1
      exact ⟨rfl, dis_one_inj _ _ _ h⟩
    · exact absurd h (dis_ne_one_ge sep hsep tail tail' m hm2)
  · rcases Nat.lt_or_ge m 2 with hm2 | hm2
    · have hm1 : m = 1 := by omega
      subst hm1
      exact absurd h.symm (dis_ne_one_ge sep hsep tail' tail n h2)
    · exact dis_inj_ge sep hsep tail tail' n m h2 hm2 h

theorem chain_le_length (sep : Str) (hsep : sepOK sep) (tl : Str) (used : List Str) (k : Nat)
    (hmem : ∀ j, 1 ≤ j → j ≤ k → dis sep tl j ∈ used) : k ≤ used.length := by
  have hnd : ((List.range k).map (fun j => dis sep tl (j + 1))).Nodup := by
    apply List.Nodup.map_on
    · intro x _ y _ hxy
      have := (dis_inj_n sep hsep tl tl (x + 1) (y + 1) (by omega) (by omega) hxy).1
      omega
    · exact List.nodup_range _
  have hsub : ∀ x ∈ (List.range k).map (fun j => dis sep tl (j + 1)), x ∈ used := by
    intro x hx
    obtain ⟨i, hi, rfl⟩ := List.mem_map.1 hx
    have hi' := List.mem_range.1 hi
    exact hmem (i + 1) (by omega) (by omega)
  have := length_le_of_nodup_subset _ used hnd hsub
  simpa using this

theorem lookup_bumpFound_self (k : Str) : ∀ m : List (Str × Nat),
    lookupStr k (bumpFound k m) = some ((lookupStr k m).getD 0 + 1) := by
  intro m
  induction m with
  | nil => simp [bumpFound, lookupStr]
  | cons p rest ih =>
    obtain ⟨k', c⟩ := p
    by_cases h : k' = k
    · subst h
      simp [bumpFound, lookupStr]
    · simp [bumpFound, lookupStr, h, ih]

theorem lookup_bumpFound_other (k k' : Str) (h : k' ≠ k) : ∀ m : List (Str × Nat),
    lookupStr k' (bumpFound k m) = lookupStr k' m := by
  intro m
  induction m with
  | nil =>
    show lookupStr k' [(k, 1)] = lookupStr k' []
    simp only [lookupStr]
    rw [if_neg (fun e => h e.symm)]
  | cons p rest ih =>
    obtain ⟨k0, c⟩ := p
    by_cases h0 : k0 = k
    · subst h0
      have hb : bumpFound k0 ((k0, c) :: rest) = (k0, c + 1) :: rest := by
        simp [bumpFound]
      rw [hb]
      show (if k0 = k' then some (c + 1) else lookupStr k' rest)
        = if k0 = k' then some c else lookupStr k' rest
      rw [if_neg (fun e => h e.symm), if_neg (fun e => h e.symm)]
    · have hb : bumpFound k ((k0, c) :: rest) = (k0, c) :: bumpFound k rest := by
        simp [bumpFound, h0]
      rw [hb]
      show (if k0 = k' then some c else lookupStr k' (bumpFound k rest))
        = if k0 = k' then some c else lookupStr k' rest
      rw [ih]

theorem addFootnoteRef_frame (st : FnState) (id : Str) :
    (addFootnoteRef st id).found_refs = st.found_refs ∧
    (addFootnoteRef st id).used_refs = st.used_refs ∧
    (addFootnoteRef st id).uniquePrefixNum = st.uniquePrefixNum ∧
    (addFootnoteRef st id).footnotes = st.footnotes := by
  unfold addFootnoteRef
  split <;> exact ⟨rfl, rfl, rfl, rfl⟩

theorem C3Inv_congr (cfg : Config) (u : Nat) (keys : List Str) (f g : Str → Nat)
    (st : FnState) (h : ∀ z ∈ keys, f z = g z) (hinv : C3Inv cfg u keys f st) :
    C3Inv cfg u keys g st := by
  obtain ⟨h1, h2, h3, h4⟩ := hinv
  refine ⟨h1, h2, ?_, ?_⟩
  · intro z hz
    rw [← h z hz]
    exact h3 z hz
  · intro s
    rw [h4 s]
    constructor
    · rintro ⟨z, hz, j, hj1, hj2, rfl⟩
      exact ⟨z, hz, j, hj1, by rw [← h z hz]; exact hj2, rfl⟩
    · rintro ⟨z, hz, j, hj1, hj2, rfl⟩
      exact ⟨z, hz, j, hj1, by rw [h z hz]; exact hj2, rfl⟩

theorem C3Inv_init (cfg : Config) (u : Nat) (fns : List (Str × Str)) :
    C3Inv cfg u (fns.map Prod.fst) (fun _ => 0)
      { footnote_order := [], footnotes := fns, uniquePrefixNum := u,
        found_refs := [], used_refs := [] } := by
  refine ⟨rfl, rfl, ?_, ?_⟩
  · intro z _
    simp [lookupStr]
  · intro s
    constructor
    · intro hs
      exact absurd hs (List.not_mem_nil s)
    · rintro ⟨z, hz, j, hj1, hj2, rfl⟩
      simp at hj2
      omega

theorem handleMatch_inv (cfg : Config) (u : Nat) (keys : List Str) (f : Str → Nat)
    (st : FnState) (id : Str) (hsep : sepOK cfg.sep)
    (hinv : C3Inv cfg u keys f st) :
    C3Inv cfg u keys
      (fun z => if id ∈ keys ∧ z = id then f z + 1 else f z)
      (handleMatch cfg st id).2 := by
  obtain ⟨hu, hk, hfound, hused⟩ := hinv
  by_cases hid : id ∈ fnKeys st
  · have hidk : id ∈ keys := hk ▸ hid
    have hfr := addFootnoteRef_frame st id
    have hu1 : (addFootnoteRef st id).uniquePrefixNum = u := by rw [hfr.2.2.1, hu]
    have hcand : refCandidate cfg (addFootnoteRef st id) id
        = dis cfg.sep (refTailN cfg u id) 1 := by
      rw [refCandidate_eq_dis, refTail_eq_refTailN, hu1]
    have hall : ∀ j, 1 ≤ j → j < f id + 1 →
        dis cfg.sep (refTailN cfg u id) j ∈ st.used_refs := by
      intro j h1 h2
      exact (hused _).2 ⟨id, hidk, j, h1, by omega, rfl⟩
    have hnotin : dis cfg.sep (refTailN cfg u id) (f id + 1) ∉ st.used_refs := by
      intro hmem
      obtain ⟨z, hz, j, hj1, hjf, heq⟩ := (hused _).1 hmem
      obtain ⟨hjeq, htl⟩ := dis_inj_n cfg.sep hsep (refTailN cfg u id) (refTailN cfg u z)
        (f id + 1) j (by omega) hj1 heq
      have hzid : z = id := refTailN_inj cfg u z id htl.symm
      subst hzid
      omega
    have hlen : f id ≤ st.used_refs.length :=
      chain_le_length cfg.sep hsep (refTailN cfg u id) st.used_refs (f id)
        (fun j h1 h2 => hall j h1 (by omega))
    have hloop := uniqueRefLoop_dis cfg.sep (refTailN cfg u id) hsep st.used_refs
      (st.used_refs.length + 1) 1 (f id + 1) (by omega) (by omega) (by omega) hnotin hall
    have hmk : makeFootnoteRefId cfg (addFootnoteRef st id) id true
        = (.ok (dis cfg.sep (refTailN cfg u id) (f id + 1)),
           { addFootnoteRef st id with
              used_refs := dis cfg.sep (refTailN cfg u id) (f id + 1) :: st.used_refs,
              found_refs := bumpFound (dis cfg.sep (refTailN cfg u id) 1) st.found_refs }) := by
      unfold makeFootnoteRefId unique_ref
      rw [hcand, if_neg (by simp), hfr.2.1, hfr.1, hloop]
      dsimp only
      rw [show addUsed (dis cfg.sep (refTailN cfg u id) (f id + 1)) st.used_refs
          = dis cfg.sep (refTailN cfg u id) (f id + 1) :: st.used_refs from by
        unfold addUsed
        rw [if_neg hnotin]]
    have hfid : (fun z => if id ∈ keys ∧ z = id then f z + 1 else f z) id = f id + 1 := by
      simp [hidk]
    have hfne : ∀ w, w ≠ id →
        (fun z => if id ∈ keys ∧ z = id then f z + 1 else f z) w = f w := by
      intro w hw
      simp [hw]
    rw [handleMatch_snd cfg st id hid, hmk]
    refine ⟨hu1, ?_, ?_, ?_⟩
    · show fnKeys { addFootnoteRef st id with
        used_refs := _, found_refs := _ } = keys
      show (addFootnoteRef st id).footnotes.map Prod.fst = keys
      rw [hfr.2.2.2]
      exact hk
    · intro z hz
      by_cases hzid : z = id
      · subst hzid
        show lookupStr (dis cfg.sep (refTailN cfg u z) 1)
            (bumpFound (dis cfg.sep (refTailN cfg u z) 1) st.found_refs) = _
        rw [hfid, lookup_bumpFound_self, hfound z hz]
        have hval : ((if f z = 0 then none else some (f z)).getD 0) + 1 = f z + 1 := by
          by_cases h0 : f z = 0
          · rw [if_pos h0]
            simp [h0]
          · rw [if_neg h0]
            simp
        rw [hval, if_neg (by omega)]
      · show lookupStr (dis cfg.sep (refTailN cfg u z) 1)
            (bumpFound (dis cfg.sep (refTailN cfg u id) 1) st.found_refs) = _
        have hne : dis cfg.sep (refTailN cfg u z) 1 ≠ dis cfg.sep (refTailN cfg u id) 1 := by
          intro he
          exact hzid (refTailN_inj cfg u z id (dis_one_inj _ _ _ he))
        rw [hfne z hzid, lookup_bumpFound_other _ _ hne, hfound z hz]
    · intro s
      show s ∈ dis cfg.sep (refTailN cfg u id) (f id + 1) :: st.used_refs ↔ _
      rw [List.mem_cons, hused s]
      constructor
      · rintro (rfl | ⟨z, hz, j, hj1, hj2, rfl⟩)
        · exact ⟨id, hidk, f id + 1, by omega, by rw [hfid], rfl⟩
        · refine ⟨z, hz, j, hj1, ?_, rfl⟩
          by_cases hzid : z = id
          · subst hzid
            rw [hfid]
            omega
          · rw [hfne z hzid]
            exact hj2
      · rintro ⟨z, hz, j, hj1, hj2, rfl⟩
        by_cases hzid : z = id
        · subst hzid
          rw [hfid] at hj2
          rcases Nat.lt_or_ge j (f z + 1) with hj | hj
          · exact Or.inr ⟨z, hz, j, hj1, by omega, rfl⟩
          · have hje : j = f z + 1 := by omega
            subst hje
            exact Or.inl rfl
        · rw [hfne z hzid] at hj2
          exact Or.inr ⟨z, hz, j, hj1, hj2, rfl⟩
  · have hidk : id ∉ keys := hk ▸ hid
    rw [handleMatch_unknown cfg st id hid]
    show C3Inv cfg u keys _ st
    refine C3Inv_congr cfg u keys f _ st ?_ ⟨hu, hk, hfound, hused⟩
    intro z hz
    rw [if_neg (fun hc => hidk hc.1)]

theorem processRefs_fst (cfg : Config) (st : FnState) (r : Str) (rest : List Str) :
    (processRefs cfg st (r :: rest)).1 = (processRefs cfg (handleMatch cfg st r).2 rest).1 := by
  show (match handleMatch cfg st r with
    | (r', st') => match processRefs cfg st' rest with
      | (stF, rs) => (stF, r' :: rs)).1 = _
  rcases hm : handleMatch cfg st r with ⟨r1, st'⟩
  rcases hpr : processRefs cfg st' rest with ⟨stF, rs⟩
  simp [hpr]

theorem processRefs_inv (cfg : Config) (u : Nat) (keys : List Str) (hsep : sepOK cfg.sep) :
    ∀ (refs : List Str) (f : Str → Nat) (st : FnState),
    C3Inv cfg u keys f st →
    C3Inv cfg u keys (fun z => f z + countOcc z refs) ((processRefs cfg st refs).1) := by
  intro refs
  induction refs with
  | nil =>
    intro f st hinv
    show C3Inv cfg u keys _ st
    refine C3Inv_congr cfg u keys f _ st ?_ hinv
    intro z _
    simp [countOcc]
  | cons r rest ih =>
    intro f st hinv
    rw [processRefs_fst]
    have hstep := handleMatch_inv cfg u keys f st r hsep hinv
    have hih := ih _ _ hstep
    refine C3Inv_congr cfg u keys _ _ _ ?_ hih
    intro z hz
    by_cases hzr : z = r
    · subst hzr
      simp only [countOcc]
      simp only [if_true]
      rw [if_pos ⟨hz, trivial⟩]
      omega
    · simp only [countOcc]
      rw [if_neg (fun hc => hzr hc.2), if_neg (fun hc => hzr hc.symm)]
      omega

theorem buildLis_get (cfg : Config) (parse : Str → List Element) :
    ∀ (fns : List (Str × Str)) (st : FnState) (index : Nat) (lis : List Element),
    (buildLis cfg parse st index fns).1 = .ok lis →
    ∀ (i : Nat) (id text : Str), fns.get? i = some (id, text) →
    ∃ li, lis.get? i = some li ∧ (buildLi cfg parse st (index + i) id text).1 = .ok li := by
  intro fns
  induction fns with
  | nil =>
    intro st index lis h i id text hget
    simp at hget
  | cons p rest ih =>
    intro st index lis h i id text hget
    obtain ⟨id0, t0⟩ := p
    simp only [buildLis] at h
    split at h
    case _ li st' hbl =>
      have hst : st' = st := by
        have := buildLi_state cfg parse st index id0 t0
        rw [hbl] at this
        exact this
      split at h
      case _ lis' st'' hbs =>
        injection h with h
        subst h
        cases i with
        | zero =>
          injection hget with hget
          injection hget with h1 h2
          subst h1
          subst h2
          refine ⟨li, rfl, ?_⟩
          rw [Nat.add_zero, hbl]
        | succ j =>
          obtain ⟨li2, hli2, hb2⟩ := ih st' (index + 1) lis' (by rw [hbs]) j id text hget
          refine ⟨li2, by simpa using hli2, ?_⟩
          rw [hst] at hb2
          rw [show index + (j + 1) = index + 1 + j from by omega]
          exact hb2
      case _ e st'' hbs => simp at h
    case _ e st' hbl => simp at h

theorem handle_duplicates_get (cfg : Config) (st : FnState) :
    ∀ (lis lis' : List Element), handle_duplicates cfg st lis = .ok lis' →
    ∀ (i : Nat) (li : Element), lis.get? i = some li →
    ∃ count li2, get_num_duplicates cfg st li = .ok count ∧
      (if count > 1 then add_duplicates cfg li count else .ok li) = .ok li2 ∧
      lis'.get? i = some li2 := by
  intro lis
  induction lis with
  | nil =>
    intro lis' h i li hget
    simp at hget
  | cons l0 rest ih =>
    intro lis' h i li hget
    simp only [handle_duplicates] at h
    split at h
    case _ e hc => exact absurd h (by simp)
    case _ count hc =>
      split at h
      case _ e hli0 => exact absurd h (by simp)
      case _ li0 hli0 =>
        cases hrec : handle_duplicates cfg st rest with
        | error e =>
          rw [hrec] at h
          simp [Except.map] at h
        | ok rest' =>
          rw [hrec] at h
          have h' : lis' = li0 :: rest' := by
            simp [Except.map] at h
            exact h.symm
          subst h'
          cases i with
          | zero =>
            injection hget with hget
            subst hget
            exact ⟨count, li0, hc, hli0, rfl⟩
          | succ j =>
            obtain ⟨c2, li2, h1, h2, h3⟩ := ih rest' hrec j li hget
            exact ⟨c2, li2, h1, h2, by simpa using h3⟩

theorem buildLi_shape (cfg : Config) (parse : Str → List Element) (st : FnState)
    (index : Nat) (id text : Str) (li : Element)
    (hne : parse text ≠ [])
    (h : (buildLi cfg parse st index id text).1 = .ok li) :
    ∃ (front : List Element) (a : List (Str × Str)) (x l : Option Str) (inner : List Element),
      li = .mk "li".data [("id".data, makeFootnoteId cfg st id)] none none
        (front ++ [.mk "p".data a x l
          (inner ++ [backlinkEl cfg index (refCandidate cfg st id)])]) ∧
      (∀ e ∈ iterAllList front, e ∈ iterAllList (parse text)) ∧
      (∀ e ∈ iterAllList inner, e ∈ iterAllList (parse text)) := by
  simp only [buildLi, makeFootnoteRefId, unique_ref_not_found] at h
  split at h
  case _ hlast => exact absurd (List.getLast?_eq_none_iff.1 hlast) hne
  case _ node hlast =>
    have hdecomp : (parse text).dropLast ++ [node] = parse text :=
      List.dropLast_append_getLast? node hlast
    split at h
    case _ hp =>
      split at h
      case _ htext => exact absurd h (by simp)
      case _ t htext =>
        injection h with h
        rcases node with ⟨nt, na, nx, nl, ncs⟩
        have hnt : nt = "p".data := hp
        refine ⟨(parse text).dropLast, na, some (t ++ NBSP_PLACEHOLDER), nl, ncs, ?_, ?_, ?_⟩
        · rw [← h, hnt]
          rfl
        · intro e he
          rw [← hdecomp, iterAllList_append]
          exact List.mem_append_left _ he
        · intro e he
          rw [← hdecomp, iterAllList_append]
          refine List.mem_append_right _ ?_
          have hit : iterAllList [Element.mk nt na nx nl ncs]
              = Element.mk nt na nx nl ncs :: iterAllList ncs := by
            show (Element.mk nt na nx nl ncs).iterAll ++ iterAllList [] = _
            rw [show iterAllList ([] : List Element) = [] from rfl, List.append_nil]
            rfl
          rw [hit]
          exact List.mem_cons_of_mem _ he
    case _ hp =>
      injection h with h
      refine ⟨parse text, [], none, none, [], ?_, ?_, ?_⟩
      · rw [← h]
        rfl
      · intro e he
        exact he
      · intro e he
        simp [iterAllList] at he

theorem find?_filter_and {α : Type} (p q : α → Bool) : ∀ l : List α,
    (l.filter p).find? q = l.find? (fun x => p x && q x) := by
  intro l
  induction l with
  | nil => rfl
  | cons a t ih =>
    cases hp : p a
    · rw [List.filter_cons_of_neg (by simp [hp]), ih,
        List.find?_cons_of_neg _ (by simp [hp])]
    · rw [List.filter_cons_of_pos hp]
      cases hq : q a
      · rw [List.find?_cons_of_neg _ (by simp [hq]),
          List.find?_cons_of_neg _ (by simp [hp, hq]), ih]
      · rw [List.find?_cons_of_pos _ hq, List.find?_cons_of_pos _ (by simp [hp, hq])]

theorem find?_append_none {α : Type} (p : α → Bool) : ∀ (l1 l2 : List α),
    (∀ y ∈ l1, p y = false) → (l1 ++ l2).find? p = l2.find? p := by
  intro l1
  induction l1 with
  | nil => intro l2 _; rfl
  | cons a t ih =>
    intro l2 hl
    rw [List.cons_append, List.find?_cons_of_neg _ (by simp [hl a (List.mem_cons_self a t)]),
      ih l2 (fun y hy => hl y (List.mem_cons_of_mem _ hy))]

theorem findBackrefLink_eq (li : Element) :
    findBackrefLink li = li.iterAll.find? isBackrefA := by
  unfold findBackrefLink Element.iterTag
  rw [find?_filter_and]
  rfl

theorem iterAllList_single (t : Str) (a : List (Str × Str)) (x l : Option Str)
    (cs : List Element) :
    iterAllList [Element.mk t a x l cs] = Element.mk t a x l cs :: iterAllList cs := by
  show (Element.mk t a x l cs).iterAll ++ iterAllList [] = _
  rw [show iterAllList ([] : List Element) = [] from rfl, List.append_nil]
  rfl

theorem findBackrefLink_shape (cfg : Config) (index : Nat) (refid : Str)
    (attrs : List (Str × Str)) (front : List Element) (a : List (Str × Str))
    (x l : Option Str) (inner : List Element)
    (hfront : ∀ e ∈ iterAllList front, isBackrefA e = false)
    (hinner : ∀ e ∈ iterAllList inner, isBackrefA e = false) :
    findBackrefLink (.mk "li".data attrs none none
      (front ++ [.mk "p".data a x l (inner ++ [backlinkEl cfg index refid])]))
      = some (backlinkEl cfg index refid) := by
  rw [findBackrefLink_eq]
  show (Element.mk "li".data attrs none none
      (front ++ [Element.mk "p".data a x l (inner ++ [backlinkEl cfg index refid])])
      :: iterAllList (front ++ [Element.mk "p".data a x l
        (inner ++ [backlinkEl cfg index refid])])).find? isBackrefA = _
  rw [iterAllList_append, iterAllList_single, iterAllList_append,
    show iterAllList [backlinkEl cfg index refid] = [backlinkEl cfg index refid] from rfl]
  rw [List.find?_cons_of_neg _ (by simp [isBackrefA, Element.tag]),
    find?_append_none _ _ _ hfront,
    List.find?_cons_of_neg _ (by simp [isBackrefA, Element.tag]),
    find?_append_none _ _ _ hinner,
    List.find?_cons_of_pos _ (show isBackrefA (backlinkEl cfg index refid) = true from rfl)]

theorem hash_fnref_sep (c : Char) (s' : Str) (hc : c ∉ "fnref0123456789#".data)
    (tail : Str) :
    pySplit1 (c :: s') ('#' :: (FNREF ++ (c :: s') ++ tail)) = some ('#' :: FNREF, tail) := by
  have hshape : '#' :: (FNREF ++ (c :: s') ++ tail) = ('#' :: FNREF) ++ (c :: s') ++ tail := by
    simp
  rw [hshape]
  apply pySplit1_sep_append
  intro x0 hx0 he
  subst he
  rcases List.mem_cons.1 hx0 with h1 | h1
  · rw [h1] at hc
    exact hc (by decide)
  · exact hc (fnref_mem_big _ h1)

theorem add_duplicates_shape (cfg : Config) (hsep : sepOK cfg.sep) (tail : Str)
    (attrs : List (Str × Str)) (front : List Element) (a : List (Str × Str))
    (x l : Option Str) (inner : List Element) (index : Nat)
    (hfront : ∀ e ∈ iterAllList front, isBackrefA e = false)
    (hinner : ∀ e ∈ iterAllList inner, isBackrefA e = false) :
    ∃ li2, add_duplicates cfg
        (.mk "li".data attrs none none
          (front ++ [.mk "p".data a x l
            (inner ++ [backlinkEl cfg index (dis cfg.sep tail 1)])])) 3
        = .ok li2 ∧
      backrefHrefs li2
        = ['#' :: dis cfg.sep tail 1, '#' :: dis cfg.sep tail 2, '#' :: dis cfg.sep tail 3] := by
  obtain ⟨c, s', hcs, hc⟩ := sep_chars cfg.sep hsep
  have hsplit : pySplit1 cfg.sep ('#' :: dis cfg.sep tail 1) = some ('#' :: FNREF, tail) := by
    rw [dis_one, hcs]
    exact hash_fnref_sep c s' hc tail
  have hadd : add_duplicates cfg
      (.mk "li".data attrs none none
        (front ++ [.mk "p".data a x l
          (inner ++ [backlinkEl cfg index (dis cfg.sep tail 1)])])) 3
      = .ok (.mk "li".data attrs none none
          (front ++ [.mk "p".data a x l
            ((inner ++ [backlinkEl cfg index (dis cfg.sep tail 1)])
              ++ [(backlinkEl cfg index (dis cfg.sep tail 1)).setAttr "href".data
                    (('#' :: FNREF) ++ natToStr 2 ++ cfg.sep ++ tail),
                  (backlinkEl cfg index (dis cfg.sep tail 1)).setAttr "href".data
                    (('#' :: FNREF) ++ natToStr 3 ++ cfg.sep ++ tail)])])) := by
    unfold add_duplicates
    rw [findBackrefLink_shape cfg index _ attrs front a x l inner hfront hinner]
    dsimp only
    rw [show attrGet (backlinkEl cfg index (dis cfg.sep tail 1)) "href".data
        = some ('#' :: dis cfg.sep tail 1) from rfl]
    dsimp only
    rw [hsplit]
    dsimp only
    rw [List.getLast?_concat]
    dsimp only
    rw [List.dropLast_concat]
    rfl
  refine ⟨_, hadd, ?_⟩
  have h2 : ('#' :: FNREF) ++ natToStr 2 ++ cfg.sep ++ tail = '#' :: dis cfg.sep tail 2 := by
    rw [dis_ge_two _ _ 2 (by omega)]
    simp [List.append_assoc]
  have h3 : ('#' :: FNREF) ++ natToStr 3 ++ cfg.sep ++ tail = '#' :: dis cfg.sep tail 3 := by
    rw [dis_ge_two _ _ 3 (by omega)]
    simp [List.append_assoc]
  rw [backrefHrefs_li]
  rw [iterAllList_append, iterAllList_single, iterAllList_append, iterAllList_append,
    show iterAllList [backlinkEl cfg index (dis cfg.sep tail 1)]
      = [backlinkEl cfg index (dis cfg.sep tail 1)] from rfl]
  rw [show iterAllList
      [(backlinkEl cfg index (dis cfg.sep tail 1)).setAttr "href".data
          (('#' :: FNREF) ++ natToStr 2 ++ cfg.sep ++ tail),
        (backlinkEl cfg index (dis cfg.sep tail 1)).setAttr "href".data
          (('#' :: FNREF) ++ natToStr 3 ++ cfg.sep ++ tail)]
      = [(backlinkEl cfg index (dis cfg.sep tail 1)).setAttr "href".data
          (('#' :: FNREF) ++ natToStr 2 ++ cfg.sep ++ tail),
        (backlinkEl cfg index (dis cfg.sep tail 1)).setAttr "href".data
          (('#' :: FNREF) ++ natToStr 3 ++ cfg.sep ++ tail)] from rfl]
  rw [List.filter_append, List.filter_cons_of_neg (by simp [isBackrefA, Element.tag]),
    List.filter_append, List.filter_append,
    filter_backref_nil _ hfront, filter_backref_nil _ hinner]
  rw [show List.filter isBackrefA [backlinkEl cfg index (dis cfg.sep tail 1)]
      = [backlinkEl cfg index (dis cfg.sep tail 1)] from rfl]
  rw [show List.filter isBackrefA
      [(backlinkEl cfg index (dis cfg.sep tail 1)).setAttr "href".data
          (('#' :: FNREF) ++ natToStr 2 ++ cfg.sep ++ tail),
        (backlinkEl cfg index (dis cfg.sep tail 1)).setAttr "href".data
          (('#' :: FNREF) ++ natToStr 3 ++ cfg.sep ++ tail)]
      = [(backlinkEl cfg index (dis cfg.sep tail 1)).setAttr "href".data
          (('#' :: FNREF) ++ natToStr 2 ++ cfg.sep ++ tail),
        (backlinkEl cfg index (dis cfg.sep tail 1)).setAttr "href".data
          (('#' :: FNREF) ++ natToStr 3 ++ cfg.sep ++ tail)] from rfl]
  simp only [List.nil_append, List.append_nil, List.map_cons, List.map_nil, List.map_append]
  rw [show attrGetD ((backlinkEl cfg index (dis cfg.sep tail 1)).setAttr "href".data
        (('#' :: FNREF) ++ natToStr 2 ++ cfg.sep ++ tail)) "href".data []
      = ('#' :: FNREF) ++ natToStr 2 ++ cfg.sep ++ tail from rfl]
  rw [show attrGetD ((backlinkEl cfg index (dis cfg.sep tail 1)).setAttr "href".data
        (('#' :: FNREF) ++ natToStr 3 ++ cfg.sep ++ tail)) "href".data []
      = ('#' :: FNREF) ++ natToStr 3 ++ cfg.sep ++ tail from rfl]
  rw [show attrGetD (backlinkEl cfg index (dis cfg.sep tail 1)) "href".data []
      = '#' :: dis cfg.sep tail 1 from rfl, h2, h3]
  rfl

theorem get_num_duplicates_of_id (cfg : Config) (st : FnState) (hsep : sepOK cfg.sep)
    (tl : Str) (li : Element)
    (hid : attrGetD li "id".data [] = "fn".data ++ cfg.sep ++ tl) :
    get_num_duplicates cfg st li
      = .ok ((lookupStr (dis cfg.sep tl 1) st.found_refs).getD 0) := by
  obtain ⟨c, s', hcs, hc⟩ := sep_chars cfg.sep hsep
  unfold get_num_duplicates
  rw [hid, hcs]
  have hsplit : pySplit1 (c :: s') ("fn".data ++ (c :: s') ++ tl) = some ("fn".data, tl) := by
    apply pySplit1_sep_append
    intro x0 hx0 he
    have hbig : x0 ∈ "fnref0123456789#".data := by
      rcases List.mem_cons.1 hx0 with h1 | h1
      · rw [h1]
        decide
      · rcases List.mem_cons.1 h1 with h2 | h2
        · rw [h2]
          decide
        · exact absurd h2 (List.not_mem_nil x0)
    exact hc (he ▸ hbig)
  rw [hsplit]
  dsimp only
  rw [show "fn".data ++ "ref".data ++ (c :: s') ++ tl = dis (c :: s') tl 1 from rfl]

/-- C3: starting from a fresh duplicate-tracking state with the
definitions stored, when the inline stage resolves a defined label by
exactly 3 references, then after the list is built and the
duplicate-augmentation stage has run, that label's list item holds
exactly 3 back-link anchors whose hrefs are the 3 pairwise distinct
entries of the label's disambiguation chain. -/
theorem C3_three_refs_three_distinct_backlinks
    (cfg : Config) (parse : Str → List Element) (u : Nat)
    (fns : List (Str × Str)) (refs : List Str) (i : Nat) (id text : Str)
    (hsep : sepOK cfg.sep)
    (hclean : ∀ t, cleanEls (parse t) = true)
    (hne : parse text ≠ [])
    (hget : fns.get? i = some (id, text))
    (hcount : countOcc id refs = 3)
    (st1 : FnState)
    (hst1 : st1 = (processRefs cfg
      { footnote_order := [], footnotes := fns, uniquePrefixNum := u,
        found_refs := [], used_refs := [] } refs).1)
    (lis lis' : List Element)
    (hbuild : (buildLis cfg parse st1 1 fns).1 = .ok lis)
    (hdup : handle_duplicates cfg st1 lis = .ok lis') :
    ∃ li, lis'.get? i = some li ∧
      backrefHrefs li
        = ['#' :: dis cfg.sep (refTailN cfg u id) 1,
           '#' :: dis cfg.sep (refTailN cfg u id) 2,
           '#' :: dis cfg.sep (refTailN cfg u id) 3] ∧
      (backrefsIn li).length = 3 ∧ (backrefHrefs li).Nodup := by
  have hidk : id ∈ fns.map Prod.fst := by
    have hmem : (id, text) ∈ fns := List.get?_mem hget
    exact List.mem_map_of_mem Prod.fst hmem
  have hinv0 := C3Inv_init cfg u fns
  have hinv1 := processRefs_inv cfg u (fns.map Prod.fst) hsep refs (fun _ => 0) _ hinv0
  rw [← hst1] at hinv1
  obtain ⟨hu1, hk1, hfound1, _⟩ := hinv1
  have hlook : lookupStr (dis cfg.sep (refTailN cfg u id) 1) st1.found_refs = some 3 := by
    have h0 : lookupStr (dis cfg.sep (refTailN cfg u id) 1) st1.found_refs
        = if 0 + countOcc id refs = 0 then none else some (0 + countOcc id refs) :=
      hfound1 id hidk
    rw [hcount] at h0
    simpa using h0
  obtain ⟨li0, hli0, hb0⟩ := buildLis_get cfg parse fns st1 1 lis hbuild i id text hget
  obtain ⟨front, a, x, l, inner, hshape, hfront0, hinner0⟩ :=
    buildLi_shape cfg parse st1 (1 + i) id text li0 hne hb0
  have hcleanT : ∀ e ∈ iterAllList (parse text), isBackrefA e = false := by
    intro e he
    have := List.all_eq_true.1 (hclean text) e he
    simpa using this
  have hfront : ∀ e ∈ iterAllList front, isBackrefA e = false :=
    fun e he => hcleanT e (hfront0 e he)
  have hinner : ∀ e ∈ iterAllList inner, isBackrefA e = false :=
    fun e he => hcleanT e (hinner0 e he)
  obtain ⟨count, li2, hcnt, hsel, hli2⟩ := handle_duplicates_get cfg st1 lis lis' hdup i li0 hli0
  have hid0 : attrGetD li0 "id".data []
      = "fn".data ++ cfg.sep ++ refTailN cfg u id := by
    have := buildLi_ok_id cfg parse st1 (1 + i) id text li0 hb0
    rw [this, makeFootnoteId_eq, hu1]
  have hcnt3 : count = 3 := by
    have h1 := get_num_duplicates_of_id cfg st1 hsep (refTailN cfg u id) li0 hid0
    rw [hlook] at h1
    rw [h1] at hcnt
    injection hcnt with hcnt
    exact hcnt.symm
  subst hcnt3
  rw [if_pos (by omega)] at hsel
  have hcand : refCandidate cfg st1 id = dis cfg.sep (refTailN cfg u id) 1 := by
    rw [refCandidate_eq_dis, refTail_eq_refTailN, hu1]
  rw [hcand] at hshape
  obtain ⟨li3, hadd, hhrefs⟩ := add_duplicates_shape cfg hsep (refTailN cfg u id)
    [("id".data, makeFootnoteId cfg st1 id)] front a x l inner (1 + i) hfront hinner
  rw [hshape, hadd] at hsel
  have hli3 : li2 = li3 := by
    injection hsel with hsel
    exact hsel.symm
  subst hli3
  refine ⟨li2, hli2, hhrefs, ?_, ?_⟩
  · have hlen3 : (backrefHrefs li2).length = 3 := by
      rw [hhrefs]
      rfl
    rw [backrefHrefs, List.length_map] at hlen3
    exact hlen3
  · rw [hhrefs]
    have hne12 : dis cfg.sep (refTailN cfg u id) 1 ≠ dis cfg.sep (refTailN cfg u id) 2 := by
      intro he
      have := (dis_inj_n cfg.sep hsep _ _ 1 2 (by omega) (by omega) he).1
      omega
    have hne13 : dis cfg.sep (refTailN cfg u id) 1 ≠ dis cfg.sep (refTailN cfg u id) 3 := by
      intro he
      have := (dis_inj_n cfg.sep hsep _ _ 1 3 (by omega) (by omega) he).1
      omega
    have hne23 : dis cfg.sep (refTailN cfg u id) 2 ≠ dis cfg.sep (refTailN cfg u id) 3 := by
      intro he
      have := (dis_inj_n cfg.sep hsep _ _ 2 3 (by omega) (by omega) he).1
      omega
    simp [List.nodup_cons, hne12, hne13, hne23]

theorem C3_witness :
    ∃ li, c3lis2.get? 0 = some li ∧
      backrefHrefs li
        = ['#' :: dis defaultConfig.sep (refTailN defaultConfig 1 "a".data) 1,
           '#' :: dis defaultConfig.sep (refTailN defaultConfig 1 "a".data) 2,
           '#' :: dis defaultConfig.sep (refTailN defaultConfig 1 "a".data) 3] ∧
      (backrefsIn li).length = 3 ∧ (backrefHrefs li).Nodup :=
  C3_three_refs_three_distinct_backlinks defaultConfig simpleParse 1
    [("a".data, "x".data)] ["a".data, "a".data, "a".data] 0 "a".data "x".data
    (by unfold sepOK defaultConfig; decide)
    (fun t => rfl)
    (by decide)
    rfl
    (by decide)
    _ rfl
    c3lis c3lis2
    rfl
    rfl

end MdFootnotes
